import Mathlib

/-!
Verification development for the evaluation scheduler and evolutionary engine of
`examples/Evolution/NN3DWalkers.cpp` (bullet3).

The development is a shallow embedding: the configuration constants, the random
number draws, the genetic operators (`mutate`, `crossover`,
`randomizeSensoryMotorWeights`), the reaper (`reap`, `getNextReaped`, `sow`),
the per walker controller update of `updateEvaluations`, and the per step
scheduler `scheduleEvaluations` are translated into Lean functions over
rational-number state.  Times, weights and the float tunables are modelled as
exact rationals; where a float expression decides a loop bound or an index
comparison, the constant is the exact value of the binary32 evaluation of that
expression, computed per IEEE 754 round-to-nearest-even and documented at the
definition.  The C `rand()` stream is modelled as an arbitrary sequence of
naturals reduced modulo `RAND_MAX + 1`.
-/

namespace NN3DWalkers

/-! ## Configuration constants (source lines 37-120) -/

/-- Value of `NUM_WALKER_LEGS` (source line 39). -/
def NUM_WALKER_LEGS : ℕ := 6

/-- Value of `BODYPART_COUNT = 2 * NUM_WALKER_LEGS + 1` (source line 109): the number
of body segments, one touch sensor each. -/
def BODYPART_COUNT : ℕ := 2 * NUM_WALKER_LEGS + 1

/-- Value of `JOINT_COUNT = BODYPART_COUNT - 1` (source line 110). -/
def JOINT_COUNT : ℕ := BODYPART_COUNT - 1

/-- Value of `POPULATION_SIZE` (source line 43). -/
def POPULATION_SIZE : ℕ := 50

/-- Value of `EVALUATION_DURATION` in seconds (source line 47). -/
def EVALUATION_DURATION : ℚ := 10

/-- Exact rational value of the binary32 literal `0.3f` (`REAP_QTY`, source line 70):
10066330 * 2 ^ (-25). -/
def REAP_QTY : ℚ := 5033165 / 16777216

/-- Exact rational value of the binary32 literal `0.2f` (`SOW_CROSSOVER_QTY`, source
line 74): 13421773 * 2 ^ (-26). -/
def SOW_CROSSOVER_QTY : ℚ := 13421773 / 67108864

/-- Exact rational value of the binary32 literal `0.2f` (`SOW_ELITE_QTY`, source line 80). -/
def SOW_ELITE_QTY : ℚ := 13421773 / 67108864

/-- Exact rational value of the binary32 literal `0.5f` (`SOW_MUTATION_QTY`, source line 84). -/
def SOW_MUTATION_QTY : ℚ := 1 / 2

/-- Exact rational value of the binary32 literal `0.5f` (`MUTATION_RATE`, source line 88). -/
def MUTATION_RATE : ℚ := 1 / 2

/-- Exact rational value of the binary32 literal `0.8f` (`SOW_ELITE_PARTNER`, source
line 92): 13421773 * 2 ^ (-24). -/
def SOW_ELITE_PARTNER : ℚ := 13421773 / 16777216

/-! ## Derived float-evaluated bounds

Each constant below is the exact rational value of a binary32 expression that the
source uses as a loop bound or an index threshold.  The binary32 evaluation is
carried out once here, per IEEE 754 single precision with round-to-nearest-even,
and recorded as a rational literal; afterwards every comparison against an
integer loop counter agrees with the exact rational comparison. -/

/-- Binary32 value of `(POPULATION_SIZE - 1) * (1 - REAP_QTY)` (source lines 1015, 1043):
`1 - 0.3f` evaluates exactly to 11744051 * 2 ^ (-24) = 0.69999998808; the product
`49 * 0.69999998808 = 34.29999941...` rounds to 8991539 * 2 ^ (-18) = 34.299999237.
The value lies strictly between 34 and 35. -/
def reapLowerBound : ℚ := 8991539 / 262144

/-- Binary32 value of `POPULATION_SIZE * SOW_CROSSOVER_QTY` (source line 1061):
`50 * 0.2f = 10.000000149...` is within half an ulp of 10 and rounds to exactly 10.0f. -/
def sowCrossoverBound : ℚ := 10

/-- Binary32 value of `POPULATION_SIZE * SOW_ELITE_QTY` (source lines 1069, 1070):
`50 * 0.2f` rounds to exactly 10.0f. -/
def sowEliteBound : ℚ := 10

/-- Binary32 value of `POPULATION_SIZE * (SOW_ELITE_QTY + SOW_MUTATION_QTY)` (source
line 1069): `0.2f + 0.5f` evaluates to 11744051 * 2 ^ (-24) = 0.69999998808 and
`50 * 0.69999998808 = 34.99999940...` rounds to exactly 35.0f. -/
def sowMutationBound : ℚ := 35

/-- Binary32 value of `(POPULATION_SIZE - 1) * (REAP_QTY - SOW_CROSSOVER_QTY)` (source
line 1073): `0.3f - 0.2f` evaluates exactly to 6710887 * 2 ^ (-26) = 0.100000008941;
the product `49 * 0.100000008941 = 4.9000004381...` rounds to
10276046 * 2 ^ (-21) = 4.9000005722.  The value lies strictly between 4 and 5. -/
def sowRandomBound : ℚ := 10276046 / 2097152

/-- Binary32 value of `(POPULATION_SIZE - 1) * SOW_ELITE_QTY` (source line 1027):
`49 * 0.2f = 9.80000028...` rounds to 10276045 * 2 ^ (-20) = 9.8000001907. -/
def eliteIndexScale : ℚ := 10276045 / 1048576

/-- Binary32 value of `(POPULATION_SIZE - 1) * (1.0f - SOW_ELITE_QTY)` (source line 1035):
`1 - 0.2f` evaluates to 13421773 * 2 ^ (-24) = 0.80000001192 and `49 * 0.80000001192`
rounds to 10276045 * 2 ^ (-18) = 39.200000763. -/
def nonEliteIndexScale : ℚ := 10276045 / 262144

/-- Binary32 value of `MUTATION_RATE / (POPULATION_SIZE * SOW_MUTATION_QTY)` (source
line 1070): `50 * 0.5f` evaluates to exactly 25.0f and `0.5f / 25.0f` rounds to
10737418 * 2 ^ (-29) = 0.019999999553. -/
def mutationRateStep : ℚ := 10737418 / 536870912

/-- Mutation rate passed by `sow` to `mutate` for the walker at ranked slot `i`
(source line 1070): `MUTATION_RATE / (POPULATION_SIZE * SOW_MUTATION_QTY) *
(i - POPULATION_SIZE * SOW_ELITE_QTY)`.  The final float product with the small
integer factor `i - 10` is modelled in exact rational arithmetic; at the first
band slot the factor is 0 and the product is exactly 0 in both semantics. -/
def sowMutationRate (i : ℕ) : ℚ := mutationRateStep * ((i : ℚ) - sowEliteBound)

/-- Number of iterations of the crossover loop `for (int i = 0; i < POPULATION_SIZE *
SOW_CROSSOVER_QTY; i++)` (source line 1061): an int counter starting at 0 leaves the
loop at the smallest integer not below the bound. -/
def sowCrossoverIters : ℕ := (Int.ceil sowCrossoverBound).toNat

/-- Number of iterations of the random-reseed loop `for (int i = 0; i <
(POPULATION_SIZE - 1) * (REAP_QTY - SOW_CROSSOVER_QTY); i++)` (source line 1073). -/
def sowRandomIters : ℕ := (Int.ceil sowRandomBound).toNat

/-- First index of the mutation band: the loop of source line 1069 starts at
`int i = POPULATION_SIZE * SOW_ELITE_QTY`, the int truncation of 10.0f.  This is also
the number of elite slots: slots below it are only ever read during a sow. -/
def sowEliteCount : ℕ := (Int.floor sowEliteBound).toNat

/-- Indices visited by the mutation loop of source line 1069: from
`int i = POPULATION_SIZE * SOW_ELITE_QTY` while `i < POPULATION_SIZE *
(SOW_ELITE_QTY + SOW_MUTATION_QTY)`. -/
def mutationBandIndices : List ℕ :=
  List.range' sowEliteCount ((Int.ceil sowMutationBound).toNat - sowEliteCount)

/-! ## The random number stream (C `rand()`)

The source draws from the C library `rand()`, seeded from the wall clock at
startup (source line 158).  The stream is modelled as an arbitrary function from
draw position to a natural, reduced modulo `RAND_MAX + 1` so that every draw lies
in `[0, RAND_MAX]` as `rand()` guarantees. -/

/-- Value of `RAND_MAX` of the C library (glibc): 2 ^ 31 - 1. -/
def RAND_MAX : ℕ := 2147483647

/-- State of the modelled random stream: the underlying sequence and the position
of the next draw. -/
structure Rng where
  seq : ℕ → ℕ
  pos : ℕ

/-- One raw `rand()` draw: a natural in `[0, RAND_MAX]`, advancing the stream. -/
def randNat (g : Rng) : ℕ × Rng :=
  (g.seq g.pos % (RAND_MAX + 1), ⟨g.seq, g.pos + 1⟩)

/-- The expression `((double) rand() / (RAND_MAX))` (source lines 344, 1090, 1109, 1112):
a rational in `[0, 1]`. -/
def randUnit (g : Rng) : ℚ × Rng :=
  (((randNat g).1 : ℚ) / (RAND_MAX : ℚ), (randNat g).2)

/-- The expression `rand() / RAND_MAX` with no cast (source lines 1027, 1035, 1064):
C integer division, which is 0 unless the draw is exactly `RAND_MAX`, where it is 1. -/
def randIntDiv (g : Rng) : ℕ × Rng :=
  ((randNat g).1 / RAND_MAX, (randNat g).2)

/-- All-zero random stream, used for concrete evaluations. -/
def rngZero : Rng := ⟨fun _ => 0, 0⟩

/-! ## The mutation operator (source lines 1107-1115)

`NN3DWalkersExample::mutate` walks the flat weight array (one entry per
sensor-joint pair, `BODYPART_COUNT * JOINT_COUNT` entries in a walker); for each
entry it draws `random = (double) rand() / RAND_MAX` and, when
`random >= mutationRate`, overwrites the entry with a fresh uniform value
`((double) rand() / RAND_MAX) * 2 - 1`.  The recursion below visits one list
entry per loop iteration. -/

/-- Translation of `NN3DWalkersExample::mutate`: the walker weight list with each
entry overwritten by a fresh uniform value in `[-1, 1]` exactly when its unit draw
is greater than or equal to `rate`. -/
def mutate (rate : ℚ) : List ℚ → Rng → List ℚ × Rng
  | [], g => ([], g)
  | w :: ws, g =>
    let r := randUnit g
    if rate ≤ r.1 then
      let u := randUnit r.2
      let rest := mutate rate ws u.2
      ((2 * u.1 - 1) :: rest.1, rest.2)
    else
      let rest := mutate rate ws r.2
      (w :: rest.1, rest.2)

/-- Modelled from the claim wording (refinement counterpart of `mutate`): each weight
is replaced by a fresh uniform value in `[-1, 1]` with probability equal to the
current mutation rate, that is, exactly when its unit coin draw falls strictly
below `rate`, and is left untouched otherwise. -/
def mutateAsClaimed (rate : ℚ) : List ℚ → Rng → List ℚ × Rng
  | [], g => ([], g)
  | w :: ws, g =>
    let r := randUnit g
    if r.1 < rate then
      let u := randUnit r.2
      let rest := mutateAsClaimed rate ws u.2
      ((2 * u.1 - 1) :: rest.1, rest.2)
    else
      let rest := mutateAsClaimed rate ws r.2
      (w :: rest.1, rest.2)

/-! ## The controller update (source lines 1148-1193)

`NN3DWalkersExample::updateEvaluations` advances, for every walker currently in
evaluation, the evaluation clock and the leg update accumulator by the clamped
step delta.  When the accumulator reaches the control period `1 / frequency` it
is reset and the controller runs: for every hinge `i` it accumulates
`targetAngle += W[i + j * BODYPART_COUNT] * touchSensor(i)` over
`j < JOINT_COUNT` (source lines 1174-1176), squashes with
`(tanh(targetAngle) + 1) * 0.5` (line 1178), maps into the hinge limit range
(line 1180) and commands the motor.  After the accumulator check — on every
step, whether or not the controller ran — the touch sensors are cleared
(line 1190).  The weight layout is the one written by
`randomizeSensoryMotorWeights` (line 344): the weight of sensor `s` and joint
`j` sits at flat index `s + j * BODYPART_COUNT`. -/

/-- Raw controller activation the code computes for hinge `i` (source lines 1174-1176):
the inner loop index `j` ranges over `JOINT_COUNT` while the touch sensor index is the
hinge index `i` itself, so the code sums the row of weights of sensor `i` across all
joints, gated by touch sensor `i`. -/
def rawActivation (weights : List ℚ) (sensors : List Bool) (i : ℕ) : ℚ :=
  ∑ j ∈ Finset.range JOINT_COUNT,
    weights.getD (i + j * BODYPART_COUNT) 0 * (if sensors.getD i false then 1 else 0)

/-- Modelled from the spec (the claim wording): the raw activation of joint `j` is the
sum over all sensors of `W[sensor][j] * S[sensor]`, with the weight of sensor `s` and
joint `j` at flat index `s + j * BODYPART_COUNT`. -/
def rawActivationAsSpecified (weights : List ℚ) (sensors : List Bool) (j : ℕ) : ℚ :=
  ∑ s ∈ Finset.range BODYPART_COUNT,
    weights.getD (s + j * BODYPART_COUNT) 0 * (if sensors.getD s false then 1 else 0)

/-- Activation squashing of source line 1178: `(tanh(raw) + 1) * 0.5`. -/
noncomputable def targetFraction (raw : ℚ) : ℝ := (Real.tanh (raw : ℝ) + 1) * (1 / 2)

/-- Joint target of source line 1180: `lowerLimit + target * (upperLimit - lowerLimit)`. -/
noncomputable def jointTargetAngle (lower upper t : ℝ) : ℝ := lower + t * (upper - lower)

/-- Weight list whose only nonzero entry is 1 at flat index 13, the weight of sensor 0
and joint 1; all `BODYPART_COUNT * JOINT_COUNT = 156` entries are present. -/
def mismatchWeights : List ℚ := List.replicate 13 0 ++ 1 :: List.replicate 142 0

/-- Sensor vector with only touch sensor 0 set. -/
def mismatchSensors : List Bool := true :: List.replicate 12 false

/-- Controller-facing state of one walker: the fields of `NNWalker` that the body of
`updateEvaluations` reads and writes (evaluation flag, evaluation clock, leg update
accumulator, touch sensors).  The weight matrix and the physics joints only feed the
externally applied motor command and are not part of this state. -/
structure CtrlWalker where
  inEvaluation : Bool
  evaluationTime : ℚ
  legUpdateAccumulator : ℚ
  touchSensors : List Bool
deriving DecidableEq

/-- Translation of the per walker body of `updateEvaluations` (source lines 1157-1192)
for an already clamped step `delta`: for a walker in evaluation, advance the clock and
the accumulator; when the accumulator reaches `1 / freq`, reset it to 0 and run the
controller tick; in either case clear the touch sensors at the end of the step
(line 1190).  Returns the new walker state, whether the controller tick fired, and the
sensor vector a tick reads (the sensors as they stand at the start of the step, before
the clear).  A walker not in evaluation is untouched. -/
def updateWalkerEvaluation (delta freq : ℚ) (w : CtrlWalker) : CtrlWalker × Bool × List Bool :=
  if w.inEvaluation = true then
    if 1 / freq ≤ w.legUpdateAccumulator + delta then
      (⟨true, w.evaluationTime + delta, 0, w.touchSensors.map (fun _ => false)⟩,
        true, w.touchSensors)
    else
      (⟨true, w.evaluationTime + delta, w.legUpdateAccumulator + delta,
        w.touchSensors.map (fun _ => false)⟩, false, w.touchSensors)
  else (w, false, w.touchSensors)

/-- Walker in evaluation whose touch sensor 0 was set by a contact event, with the leg
update accumulator at 0 so that the next control tick is still in the future. -/
def lostContactWalker : CtrlWalker := ⟨true, 0, 0, true :: List.replicate 12 false⟩

/-! ## The evolution engine (source lines 983-1115)

At a round end `rateEvaluations` ranks the population, resets every evaluation
clock and resets `m_nextReapedIndex` to 0 (source lines 1007-1010); then `reap`
flags the worst slots and `sow` refills them.  The state below carries the data
these operators read and write: the per slot weight lists, the per slot reaped
flags, the `m_nextReapedIndex` counter, and the random stream.  Slot `i` is the
position in the ranked population array. -/

/-- Evolution-engine state. -/
structure EvoState where
  weights : List (List ℚ)
  reaped : List Bool
  nextReapedIndex : ℕ
  rng : Rng

/-- Translation of `NN3DWalkersExample::reap` (source lines 1013-1020): the loop
descends from slot `POPULATION_SIZE - 1` while `i >= (POPULATION_SIZE - 1) *
(1 - REAP_QTY)` and flags each visited slot; since the comparison holds exactly for
the consecutive indices at and above the threshold, the loop flags exactly the slots
whose index clears `reapLowerBound`. -/
def reap (s : EvoState) : EvoState :=
  { s with reaped := s.reaped.mapIdx (fun i r => if reapLowerBound ≤ (i : ℚ) then true else r) }

/-- Number of slots the reap loop visits. -/
def reapCount : ℕ :=
  ((Finset.range POPULATION_SIZE).filter (fun (i : ℕ) => reapLowerBound ≤ (i : ℚ))).card

/-- Translation of `getNextReaped` (source lines 1042-1054): when `(POPULATION_SIZE - 1)
- m_nextReapedIndex` still clears the reap threshold the counter advances; the walker
at slot `(POPULATION_SIZE - 1) - m_nextReapedIndex + 1` is returned if it is flagged
reaped, otherwise the C code returns NULL, modelled as `none`. -/
def getNextReaped (s : EvoState) : Option ℕ × EvoState :=
  let k := if reapLowerBound ≤ ((POPULATION_SIZE : ℚ) - 1) - (s.nextReapedIndex : ℚ)
    then s.nextReapedIndex + 1 else s.nextReapedIndex
  let idx := POPULATION_SIZE - 1 - k + 1
  if s.reaped.getD idx false = true then (some idx, { s with nextReapedIndex := k })
  else (none, { s with nextReapedIndex := k })

/-- Translation of `getRandomElite` (source lines 1026-1028): the array subscript
`((POPULATION_SIZE - 1) * SOW_ELITE_QTY) * (rand() / RAND_MAX)` — the division is a C
integer division, so the factor is 0 unless the raw draw is exactly `RAND_MAX` — is
truncated to int by the subscript, yielding slot 0 or slot 9. -/
def getRandomElite (g : Rng) : ℕ × Rng :=
  let q := randIntDiv g
  ((Int.floor (eliteIndexScale * (q.1 : ℚ))).toNat, q.2)

/-- Translation of `getRandomNonElite` (source lines 1034-1036), yielding slot 9 or
slot 49.  The final float addition is modelled in exact rational arithmetic; for the
two possible values 0 and 1 of the integer-divided draw the truncated index agrees
with the binary32 evaluation. -/
def getRandomNonElite (g : Rng) : ℕ × Rng :=
  let q := randIntDiv g
  ((Int.floor (eliteIndexScale + nonEliteIndexScale * (q.1 : ℚ))).toNat, q.2)

/-- Translation of `crossover` (source lines 1088-1100): for each of the
`BODYPART_COUNT * JOINT_COUNT` weight entries draw a unit coin; entries whose draw is
at least 0.5 come from the mother, the rest from the father. -/
def crossover : ℕ → List ℚ → List ℚ → Rng → List ℚ × Rng
  | 0, _, _, g => ([], g)
  | n + 1, ms, fs, g =>
    let r := randUnit g
    let v := if (1 : ℚ) / 2 ≤ r.1 then ms.headD 0 else fs.headD 0
    let rest := crossover n ms.tail fs.tail r.2
    (v :: rest.1, rest.2)

/-- List of `n` consecutive unit draws. -/
def drawUnitList : ℕ → Rng → List ℚ × Rng
  | 0, g => ([], g)
  | n + 1, g =>
    let r := randUnit g
    let rest := drawUnitList n r.2
    (r.1 :: rest.1, rest.2)

/-- Translation of `randomizeSensoryMotorWeights` (source lines 340-347): every entry
becomes a fresh uniform value in `[-1, 1]`.  The source iterates sensors in the outer
loop and joints in the inner loop while the flat index is `sensor + joint *
BODYPART_COUNT`, so flat index `k` receives draw number
`(k % BODYPART_COUNT) * JOINT_COUNT + k / BODYPART_COUNT` of the call. -/
def randomizeSensoryMotorWeights (g : Rng) : List ℚ × Rng :=
  let ds := drawUnitList (BODYPART_COUNT * JOINT_COUNT) g
  ((List.range (BODYPART_COUNT * JOINT_COUNT)).map
    (fun k => 2 * ds.1.getD ((k % BODYPART_COUNT) * JOINT_COUNT + k / BODYPART_COUNT) 0 - 1),
   ds.2)

/-- One pass of the crossover loop of `sow` (source lines 1061-1067): per iteration,
choose the elite mother; draw the partner coin `SOW_ELITE_PARTNER < rand() / RAND_MAX`
(C integer division, so the elite-father branch is taken only when the raw draw is
exactly `RAND_MAX`); choose the father accordingly; take the next reaped walker as
offspring and overwrite its weights by crossover.  `none` models the NULL pointer
dereference `crossover` would perform had `getNextReaped` run out of reaped walkers. -/
def sowCrossoverLoop : ℕ → EvoState → Option EvoState
  | 0, s => some s
  | n + 1, s =>
    let me := getRandomElite s.rng
    let pq := randIntDiv me.2
    let fa := if SOW_ELITE_PARTNER < (pq.1 : ℚ) then getRandomElite pq.2
      else getRandomNonElite pq.2
    let r := getNextReaped { s with rng := fa.2 }
    match r.1 with
    | none => none
    | some oIdx =>
      let cw := crossover (BODYPART_COUNT * JOINT_COUNT)
        (r.2.weights.getD me.1 []) (r.2.weights.getD fa.1 []) r.2.rng
      sowCrossoverLoop n { r.2 with weights := r.2.weights.set oIdx cw.1, rng := cw.2 }

/-- The mutation loop of `sow` (source lines 1069-1071) over the listed slot indices:
each visited surviving walker is mutated in place at its band-scaled rate. -/
def sowMutationLoop : List ℕ → EvoState → EvoState
  | [], s => s
  | i :: rest, s =>
    let mw := mutate (sowMutationRate i) (s.weights.getD i []) s.rng
    sowMutationLoop rest { s with weights := s.weights.set i mw.1, rng := mw.2 }

/-- The random-reseed loop of `sow` (source lines 1073-1078): each iteration takes the
next reaped walker, clears its reaped flag and randomizes its weights; `none` models
the NULL dereference `reaped->setReaped(false)` would perform. -/
def sowRandomLoop : ℕ → EvoState → Option EvoState
  | 0, s => some s
  | n + 1, s =>
    let r := getNextReaped s
    match r.1 with
    | none => none
    | some idx =>
      let rw := randomizeSensoryMotorWeights r.2.rng
      sowRandomLoop n
        { r.2 with reaped := r.2.reaped.set idx false,
                   weights := r.2.weights.set idx rw.1, rng := rw.2 }

/-- Translation of `NN3DWalkersExample::sow` (source lines 1059-1080): the crossover
loop, then the mutation band, then the random-reseed loop. -/
def sow (s : EvoState) : Option EvoState :=
  (sowCrossoverLoop sowCrossoverIters s).bind
    (fun s1 => sowRandomLoop sowRandomIters (sowMutationLoop mutationBandIndices s1))

/-- Precondition established at a round end right after `rateEvaluations` and `reap`
under the default configuration: all 50 slots present, `m_nextReapedIndex` reset to 0
(source line 1010), and every slot at or above the reap boundary (index 35 and up,
the integer form of `reapLowerBound`) flagged reaped. -/
def SowReady (s : EvoState) : Prop :=
  s.weights.length = POPULATION_SIZE ∧ s.reaped.length = POPULATION_SIZE ∧
  s.nextReapedIndex = 0 ∧
  ∀ i ∈ List.range POPULATION_SIZE, 35 ≤ i → s.reaped.getD i false = true

/-- Population state a round end starts from, as `rateEvaluations` leaves it before
`reap`: 50 slots with zeroed full-size weight lists, no reaped flags,
`m_nextReapedIndex` reset to 0, and the all-zero random stream. -/
def freshEvo : EvoState :=
  ⟨List.replicate POPULATION_SIZE (List.replicate (BODYPART_COUNT * JOINT_COUNT) 0),
   List.replicate POPULATION_SIZE false, 0, rngZero⟩

/-! ## Startup configuration handling (source lines 717-854) -/

/-- Configuration surface of the evolution core: population size, parallel evaluation
bound, and the four population fractions. -/
structure EvoConfig where
  populationSize : ℕ
  parallelEvaluations : ℚ
  reapQty : ℚ
  crossoverQty : ℚ
  eliteQty : ℚ
  mutationQty : ℚ

/-- Modelled from the claim wording: a configuration is malformed when the quota
fractions fail the documented budget `SOW_ELITE_QTY + SOW_MUTATION_QTY + REAP_QTY = 1`
(source line 84) over the population, or when the parallelism bound is not positive. -/
def MalformedConfig (c : EvoConfig) : Prop :=
  c.eliteQty + c.mutationQty + c.reapQty ≠ 1 ∨ c.parallelEvaluations ≤ 0

/-- Configuration validation performed by `initPhysics` (source lines 717-854): there
is none.  `initPhysics` registers GUI sliders and builds the physics scene; no code
path inspects the evolution fractions or the parallelism bound, and no error is ever
raised, so the validation result is `none` for every configuration. -/
def initPhysicsConfigError (_ : EvoConfig) : Option String := none

/-- Default configuration except that the parallel evaluation bound is 0: malformed in
the claimed sense. -/
def zeroParallelConfig : EvoConfig :=
  ⟨POPULATION_SIZE, 0, REAP_QTY, SOW_CROSSOVER_QTY, SOW_ELITE_QTY, SOW_MUTATION_QTY⟩

/-! ## The evaluation scheduler (source lines 1198-1244)

`scheduleEvaluations` runs once per physics step after `updateEvaluations`.  For
every slot in ascending order it first tears down a finished evaluation (walker
in evaluation whose clock reached `EVALUATION_DURATION`: clear the flag, remove
from the world, decrement `m_walkersInEvaluation`) and then, if the in-flight
counter is below `gParallelEvaluations` and the walker is idle with a zero clock
(that is, never run this round), rebuilds and activates it — the `REBUILD_WALKER`
path constructs a fresh walker with a zero clock and a clear reaped flag, sets it
in evaluation and adds it to the world — incrementing the counter.  After the
pass, if the counter is zero, `rateEvaluations` sorts the population, resets
every evaluation clock and the reaped cursor, and `reap` and `sow` run: one full
generation handoff.  The scheduler-facing projection of a walker is its
evaluation flag and clock. -/

/-- Scheduler-facing projection of one walker. -/
structure SchedWalker where
  inEvaluation : Bool
  evaluationTime : ℚ
deriving DecidableEq

/-- Scheduler state: the population in slot order and the `m_walkersInEvaluation`
counter (a C int, modelled as an integer). -/
structure SchedState where
  walkers : List SchedWalker
  inFlight : ℤ
deriving DecidableEq

/-- Teardown half of one slot visit (source lines 1201-1206): a finished evaluation
leaves the in-evaluation set and decrements the counter; the clock keeps its value
until the next round reset. -/
def schedTeardown (dur : ℚ) (w : SchedWalker) (c : ℤ) : SchedWalker × ℤ :=
  if w.inEvaluation = true ∧ dur ≤ w.evaluationTime
    then ((⟨false, w.evaluationTime⟩ : SchedWalker), c - 1) else (w, c)

/-- Admission half of one slot visit (source lines 1208-1225): while the counter is
strictly below the parallelism bound, an idle walker with a zero clock is rebuilt
with a fresh zero clock, set in evaluation, and the counter incremented. -/
def schedAdmit (par : ℚ) (w : SchedWalker) (c : ℤ) : SchedWalker × ℤ :=
  if (c : ℚ) < par ∧ w.inEvaluation = false ∧ w.evaluationTime = 0
    then ((⟨true, 0⟩ : SchedWalker), c + 1) else (w, c)

/-- One slot visit of the `scheduleEvaluations` loop: teardown, then admission. -/
def schedWalkerStep (par dur : ℚ) (w : SchedWalker) (c : ℤ) : SchedWalker × ℤ :=
  schedAdmit par (schedTeardown dur w c).1 (schedTeardown dur w c).2

/-- The per slot pass of `scheduleEvaluations` in ascending slot order. -/
def schedPass (par dur : ℚ) : List SchedWalker → ℤ → List SchedWalker × ℤ
  | [], c => ([], c)
  | w :: ws, c =>
    let p := schedWalkerStep par dur w c
    let q := schedPass par dur ws p.2
    (p.1 :: q.1, q.2)

/-- Translation of `scheduleEvaluations` (source lines 1198-1244): the slot pass,
then the round-end check `m_walkersInEvaluation == 0`.  At a round end
`rateEvaluations` sorts the population by fitness — modelled by the order-permuting
parameter `resort`, fitness being external to this projection — and resets every
evaluation clock to 0 (source lines 1002-1010); `reap` and `sow` touch no
scheduler-facing field.  Returns the new state and whether the round ended. -/
def scheduleEvaluations (resort : List SchedWalker → List SchedWalker) (par dur : ℚ)
    (s : SchedState) : SchedState × Bool :=
  if (schedPass par dur s.walkers s.inFlight).2 = 0 then
    (⟨(resort (schedPass par dur s.walkers s.inFlight).1).map
        (fun w => (⟨w.inEvaluation, 0⟩ : SchedWalker)),
      (schedPass par dur s.walkers s.inFlight).2⟩, true)
  else (⟨(schedPass par dur s.walkers s.inFlight).1,
    (schedPass par dur s.walkers s.inFlight).2⟩, false)

/-- Scheduler-facing effect of `updateEvaluations` (source lines 1148-1162): the step
delta, clamped to at most `minFPS = 1/60` s, advances the clock of every walker in
evaluation. -/
def advanceTimes (dt : ℚ) (s : SchedState) : SchedState :=
  ⟨s.walkers.map (fun w => if w.inEvaluation = true
      then (⟨w.inEvaluation,
        w.evaluationTime + (if 1 / 60 < dt then 1 / 60 else dt)⟩ : SchedWalker)
      else w),
   s.inFlight⟩

/-- The population as `initPhysics` leaves it (source lines 846-853): every slot a
fresh walker, none in evaluation, the in-flight counter 0. -/
def initState (n : ℕ) : SchedState :=
  ⟨List.replicate n ⟨false, 0⟩, 0⟩

/-- A walker that has started an evaluation this round: in evaluation now, or its
clock has advanced. -/
def Started (w : SchedWalker) : Prop :=
  w.inEvaluation = true ∨ w.evaluationTime ≠ 0

/-- A walker that is not mid-evaluation carries either a reset clock or a finished
one (at least the evaluation duration). -/
def Settled (dur : ℚ) (w : SchedWalker) : Prop :=
  w.inEvaluation = false → (w.evaluationTime = 0 ∨ dur ≤ w.evaluationTime)

/-- Contribution of one walker to the in-evaluation count. -/
def evalFlag (w : SchedWalker) : ℤ :=
  if w.inEvaluation = true then 1 else 0

/-- Number of walkers currently in evaluation. -/
def countInEval (l : List SchedWalker) : ℤ :=
  ((l.countP (fun w => w.inEvaluation) : ℕ) : ℤ)

/-- The walkers that have started this round form a prefix of the slot order: the
scheduler admits in ascending slot order, so a started walker never sits after an
unstarted one. -/
def StartedToFront (l : List SchedWalker) : Prop :=
  List.Pairwise (fun a b => Started b → Started a) l

/-- Scheduler invariant: the in-flight counter counts the walkers in evaluation, the
started walkers form a prefix of the slot order, and every walker outside evaluation
has a reset or finished clock. -/
def SchedInv (dur : ℚ) (s : SchedState) : Prop :=
  s.inFlight = countInEval s.walkers ∧ StartedToFront s.walkers ∧
    ∀ w ∈ s.walkers, Settled dur w

/-! ## Ranking at a round end (source lines 983-991)

`rateEvaluations` sorts the whole population with
`m_walkersInPopulation.quickSort(fitnessComparator)`.  The comparator (source
lines 983-986) is the strict descending fitness comparison and carries no
tie-break.  The sort itself, `btAlignedObjectArray::quickSort`, belongs to the
repository (LinearMath/btAlignedObjectArray.h) but is not among the sources under
review; following the specification, the ranking is modelled as the sort by
descending fitness with ties broken by ascending slot index. -/

/-- Ranking-facing view of one walker: its fitness value and its slot index. -/
structure RankEntry where
  fitness : ℚ
  slot : ℕ
deriving DecidableEq

/-- Translation of `fitnessComparator` (source lines 983-986):
`a.getFitness() > b.getFitness()`, a strict descending comparison with no
tie-break. -/
def fitnessComparator (a b : RankEntry) : Prop := b.fitness < a.fitness

/-- Modelled from the spec: the ranking order — descending fitness, ties broken by
ascending slot index. -/
def rankRel (a b : RankEntry) : Prop :=
  b.fitness < a.fitness ∨ (a.fitness = b.fitness ∧ a.slot ≤ b.slot)

instance : DecidableRel rankRel := fun a b =>
  decidable_of_iff (b.fitness < a.fitness ∨ (a.fitness = b.fitness ∧ a.slot ≤ b.slot))
    Iff.rfl

instance : IsTotal RankEntry rankRel := by
  constructor
  intro a b
  rcases lt_trichotomy a.fitness b.fitness with h | h | h
  · right
    left
    exact h
  · rcases Nat.le_total a.slot b.slot with hs | hs
    · left
      right
      exact ⟨h, hs⟩
    · right
      right
      exact ⟨h.symm, hs⟩
  · left
    left
    exact h

instance : IsTrans RankEntry rankRel := by
  constructor
  intro a b c hab hbc
  rcases hab with h1 | ⟨h1, h1s⟩ <;> rcases hbc with h2 | ⟨h2, h2s⟩
  · left
    linarith
  · left
    linarith [le_of_eq h2]
  · left
    linarith
  · right
    exact ⟨h1.trans h2, h1s.trans h2s⟩

instance : IsAntisymm RankEntry rankRel := by
  constructor
  intro a b hab hba
  have hf : a.fitness = b.fitness := by
    rcases hab with h1 | ⟨h1, -⟩ <;> rcases hba with h2 | ⟨h2, -⟩ <;> linarith [le_of_eq h1]
  have hs : a.slot = b.slot := by
    rcases hab with h1 | ⟨-, h1s⟩
    · exact absurd hf (by intro he; rw [he] at h1; exact lt_irrefl _ h1)
    · rcases hba with h2 | ⟨-, h2s⟩
      · exact absurd hf (by intro he; rw [he] at h2; exact lt_irrefl _ h2)
      · omega
  cases a
  cases b
  simp only at hf hs
  rw [hf, hs]

/-- Modelled from the spec: the ranking `rateEvaluations` performs — the population
sorted by `rankRel` (descending fitness, ties by ascending slot index). -/
def rankPopulation (l : List RankEntry) : List RankEntry :=
  List.insertionSort rankRel l

/-! ## Theorems -/

/-- The elite slot count evaluates to 10. -/
lemma sowEliteCount_eq : sowEliteCount = 10 := by decide

/-- The rate passed to `mutate` at the first mutation-band slot is exactly 0. -/
lemma sowMutationRate_at_band_lo : sowMutationRate sowEliteCount = 0 := by
  rw [sowEliteCount_eq]
  norm_num [sowMutationRate, mutationRateStep, sowEliteBound]

/-- Every unit draw is nonnegative. -/
lemma randUnit_nonneg (g : Rng) : 0 ≤ (randUnit g).1 := by
  have h : (0 : ℚ) ≤ ((randNat g).1 : ℚ) := Nat.cast_nonneg _
  have h2 : (0 : ℚ) ≤ (RAND_MAX : ℚ) := Nat.cast_nonneg _
  exact div_nonneg h h2

/-- Every unit draw is at most 1. -/
lemma randUnit_le_one (g : Rng) : (randUnit g).1 ≤ 1 := by
  have hlt : (randNat g).1 < RAND_MAX + 1 := by
    have := Nat.mod_lt (g.seq g.pos) (y := RAND_MAX + 1) (by norm_num [RAND_MAX])
    simpa [randNat] using this
  have hle : (randNat g).1 ≤ RAND_MAX := by omega
  have hcast : ((randNat g).1 : ℚ) ≤ (RAND_MAX : ℚ) := by exact_mod_cast hle
  have hpos : (0 : ℚ) < (RAND_MAX : ℚ) := by norm_num [RAND_MAX]
  rw [randUnit]
  exact div_le_one_of_le₀ hcast (le_of_lt hpos)

/-- The mutated weight list has the same length as the input list. -/
lemma mutate_length (rate : ℚ) (ws : List ℚ) : ∀ g : Rng,
    ((mutate rate ws g).1).length = ws.length := by
  induction ws with
  | nil => intro g; rfl
  | cons w ws ih =>
    intro g
    simp only [mutate]
    split
    · simp [ih]
    · simp [ih]

/-- Head of a mutated list: replaced by a fresh value exactly when the coin draw is
at least the rate, kept otherwise. -/
lemma mutate_head (rate w : ℚ) (ws : List ℚ) (g : Rng) :
    ((mutate rate (w :: ws) g).1).headD 0 =
      if rate ≤ (randUnit g).1 then 2 * (randUnit (randUnit g).2).1 - 1 else w := by
  simp only [mutate]
  split
  · simp
  · simp

/-- Every entry of a mutated list is the original entry at that position or a fresh
value lying in `[-1, 1]`. -/
lemma mutate_getD (rate : ℚ) (ws : List ℚ) : ∀ (g : Rng) (i : ℕ),
    ((mutate rate ws g).1).getD i 0 = ws.getD i 0 ∨
      (-1 ≤ ((mutate rate ws g).1).getD i 0 ∧ ((mutate rate ws g).1).getD i 0 ≤ 1) := by
  induction ws with
  | nil => intro g i; left; rfl
  | cons w ws ih =>
    intro g i
    simp only [mutate]
    split
    · cases i with
      | zero =>
        right
        have h0 := randUnit_nonneg (randUnit g).2
        have h1 := randUnit_le_one (randUnit g).2
        constructor
        · simp only [List.getD_cons_zero]
          linarith
        · simp only [List.getD_cons_zero]
          linarith
      | succ n =>
        have := ih (randUnit (randUnit g).2).2 n
        simpa using this
    · cases i with
      | zero => left; simp
      | succ n =>
        have := ih (randUnit g).2 n
        simpa using this

/-- At rate 0 the result of `mutate` does not depend on the input entries at all:
it agrees with the result on an all-zero list of the same length. -/
lemma mutate_zero_rate (ws : List ℚ) : ∀ g : Rng,
    (mutate 0 ws g).1 = (mutate 0 (List.replicate ws.length 0) g).1 := by
  induction ws with
  | nil => intro g; rfl
  | cons w ws ih =>
    intro g
    simp only [List.length_cons, List.replicate_succ, mutate,
      if_pos (randUnit_nonneg g)]
    simp [ih]

/-- C1 (amended): `mutate` draws one unit coin per weight and replaces the weight
with a fresh uniform value in `[-1, 1]` exactly when the draw is greater than or
equal to the current rate — an event of probability `1 - rate`, not `rate`; every
other weight is untouched.  The rate passed by `sow` at mutation-band offset 0 is
exactly 0, so the walker at band offset 0 has every weight replaced (a full random
reseed), not a near-copy. -/
theorem mutate_inverted_coin_characterization :
    (∀ (rate : ℚ) (ws : List ℚ) (g : Rng), ((mutate rate ws g).1).length = ws.length) ∧
    (∀ (rate w : ℚ) (ws : List ℚ) (g : Rng),
      ((mutate rate (w :: ws) g).1).headD 0 =
        if rate ≤ (randUnit g).1 then 2 * (randUnit (randUnit g).2).1 - 1 else w) ∧
    (∀ (rate : ℚ) (ws : List ℚ) (g : Rng) (i : ℕ),
      ((mutate rate ws g).1).getD i 0 = ws.getD i 0 ∨
        (-1 ≤ ((mutate rate ws g).1).getD i 0 ∧ ((mutate rate ws g).1).getD i 0 ≤ 1)) ∧
    (∀ (ws : List ℚ) (g : Rng),
      (mutate 0 ws g).1 = (mutate 0 (List.replicate ws.length 0) g).1) ∧
    sowMutationRate sowEliteCount = 0 :=
  ⟨fun rate ws g => mutate_length rate ws g,
   fun rate w ws g => mutate_head rate w ws g,
   fun rate ws g i => mutate_getD rate ws g i,
   fun ws g => mutate_zero_rate ws g,
   sowMutationRate_at_band_lo⟩

/-- C1 (counterexample): at mutation-band offset 0 the rate passed by `sow` is 0;
on the all-zero random stream the code then replaces the weight (its draw 0
satisfies `0 >= rate`), producing `-1`, while the behaviour the claim describes — a
replacement with probability equal to the rate — leaves the weight untouched.  The
claim, read as a statement about the program, is false on this input. -/
theorem mutate_rate_zero_not_near_copy :
    sowMutationRate sowEliteCount = 0 ∧
    (mutate (sowMutationRate sowEliteCount) [0] rngZero).1 = [-1] ∧
    (mutateAsClaimed (sowMutationRate sowEliteCount) [0] rngZero).1 = [0] ∧
    (mutate (sowMutationRate sowEliteCount) [0] rngZero).1 ≠
      (mutateAsClaimed (sowMutationRate sowEliteCount) [0] rngZero).1 := by
  have h0 : sowMutationRate sowEliteCount = 0 := sowMutationRate_at_band_lo
  have hdraw : (randUnit rngZero).1 = 0 := by
    simp [randUnit, randNat, rngZero]
  have hdraw2 : (randUnit (randUnit rngZero).2).1 = 0 := by
    simp [randUnit, randNat, rngZero]
  have hcode : (mutate (sowMutationRate sowEliteCount) [0] rngZero).1 = [-1] := by
    rw [h0]
    simp only [mutate, hdraw]
    rw [if_pos le_rfl]
    simp [hdraw2, mutate]
  have hclaim : (mutateAsClaimed (sowMutationRate sowEliteCount) [0] rngZero).1 = [0] := by
    rw [h0]
    simp only [mutateAsClaimed, hdraw]
    rw [if_neg (lt_irrefl 0)]
  refine ⟨h0, hcode, hclaim, ?_⟩
  rw [hcode, hclaim]
  intro h
  have := List.head_eq_of_cons_eq h
  norm_num at this

/-- Lookup into an all-false replicate list always yields false. -/
lemma getD_replicate_false : ∀ (n i : ℕ), (List.replicate n false).getD i false = false := by
  intro n
  induction n with
  | zero => intro i; rfl
  | succ m ih =>
    intro i
    cases i with
    | zero => rfl
    | succ k =>
      simp only [List.replicate_succ, List.getD_cons_succ]
      exact ih k

/-- The raw activation of hinge `i` is the touch sensor bit of segment `i` gating the
sum of the weights of sensor `i` over all joints. -/
lemma rawActivation_eq (w : List ℚ) (s : List Bool) (i : ℕ) :
    rawActivation w s i =
      if s.getD i false then
        ∑ j ∈ Finset.range JOINT_COUNT, w.getD (i + j * BODYPART_COUNT) 0
      else 0 := by
  rw [rawActivation]
  by_cases h : s.getD i false
  · simp [h]
  · simp [h]

/-- C4 (amended): on a control tick the raw activation the code computes for joint `i`
is the touch sensor bit of segment `i` times the sum of the weights of sensor `i`
across all joints — not the claimed sum over sensors of `W[sensor][i] * S[sensor]`.
With an all-zero sensor vector every raw activation is 0, the squashed target is 1/2,
and the joint target angle is the midpoint of the hinge limits. -/
theorem controller_raw_activation_rowsum :
    (∀ (w : List ℚ) (s : List Bool) (i : ℕ),
      rawActivation w s i =
        if s.getD i false then
          ∑ j ∈ Finset.range JOINT_COUNT, w.getD (i + j * BODYPART_COUNT) 0
        else 0) ∧
    (∀ (w : List ℚ) (i : ℕ),
      rawActivation w (List.replicate BODYPART_COUNT false) i = 0) ∧
    targetFraction 0 = 1 / 2 ∧
    (∀ lower upper : ℝ,
      jointTargetAngle lower upper (targetFraction 0) = (lower + upper) / 2) := by
  have htf : targetFraction 0 = 1 / 2 := by
    rw [targetFraction]
    norm_num [Real.tanh_zero]
  refine ⟨rawActivation_eq, ?_, htf, ?_⟩
  · intro w i
    rw [rawActivation_eq]
    simp [getD_replicate_false]
  · intro lower upper
    rw [jointTargetAngle, htf]
    ring

/-- C4 (counterexample): with the single weight `W[sensor 0][joint 1] = 1` and only
touch sensor 0 set, the claimed formula gives raw activation 1 for joint 1, but the
code computes 0 because it gates joint 1 by touch sensor 1 and never reads
`W[0][1]` for joint 1.  The claim is false on this concrete input. -/
theorem controller_raw_activation_mismatch :
    rawActivation mismatchWeights mismatchSensors 1 = 0 ∧
    rawActivationAsSpecified mismatchWeights mismatchSensors 1 = 1 ∧
    rawActivation mismatchWeights mismatchSensors 1 ≠
      rawActivationAsSpecified mismatchWeights mismatchSensors 1 := by
  have hs1 : mismatchSensors.getD 1 false = false := by decide
  have hcode : rawActivation mismatchWeights mismatchSensors 1 = 0 := by
    rw [rawActivation_eq, hs1]
    simp
  have hw13 : mismatchWeights.getD (0 + 1 * BODYPART_COUNT) 0 = 1 := by decide
  have hs0 : mismatchSensors.getD 0 false = true := by decide
  have hspec : rawActivationAsSpecified mismatchWeights mismatchSensors 1 = 1 := by
    rw [rawActivationAsSpecified]
    rw [Finset.sum_eq_single 0]
    · rw [hw13, hs0]
      norm_num
    · intro b _ hb0
      have hsb : mismatchSensors.getD b false = false := by
        rcases b with _ | k
        · exact absurd rfl hb0
        · simpa [mismatchSensors] using getD_replicate_false 12 k
      rw [hsb]
      simp
    · intro h0
      exact absurd (by decide : (0 : ℕ) ∈ Finset.range BODYPART_COUNT) h0
  refine ⟨hcode, hspec, ?_⟩
  rw [hcode, hspec]
  norm_num

/-- C5 (amended): for a walker in evaluation `updateEvaluations` clears every touch
sensor on every physics step — after the controller tick, if one fired, has read
them — so a controller tick sees exactly the contacts recorded since the preceding
step, and a contact recorded on a step without a tick is never seen by a later tick.
A walker not in evaluation is untouched.  The tick fires exactly when the walker is
in evaluation and the accumulator reaches the control period. -/
theorem touch_sensor_cleared_every_step :
    (∀ (delta freq : ℚ) (w : CtrlWalker),
      ((updateWalkerEvaluation delta freq w).1).touchSensors =
        if w.inEvaluation = true then w.touchSensors.map (fun _ => false)
        else w.touchSensors) ∧
    (∀ (delta freq : ℚ) (w : CtrlWalker),
      (updateWalkerEvaluation delta freq w).2.2 = w.touchSensors) ∧
    (∀ (delta freq : ℚ) (w : CtrlWalker),
      (updateWalkerEvaluation delta freq w).2.1 =
        (w.inEvaluation && decide (1 / freq ≤ w.legUpdateAccumulator + delta))) := by
  refine ⟨?_, ?_, ?_⟩
  · intro delta freq w
    rcases w with ⟨ie, et, acc, ts⟩
    cases ie
    · simp [updateWalkerEvaluation]
    · rw [updateWalkerEvaluation]
      by_cases h2 : 1 / freq ≤ acc + delta
      · rw [if_pos rfl, if_pos h2]
        simp
      · rw [if_pos rfl, if_neg h2]
        simp
  · intro delta freq w
    rcases w with ⟨ie, et, acc, ts⟩
    cases ie
    · simp [updateWalkerEvaluation]
    · rw [updateWalkerEvaluation]
      by_cases h2 : 1 / freq ≤ acc + delta
      · rw [if_pos rfl, if_pos h2]
      · rw [if_pos rfl, if_neg h2]
  · intro delta freq w
    rcases w with ⟨ie, et, acc, ts⟩
    cases ie
    · simp [updateWalkerEvaluation]
    · rw [updateWalkerEvaluation]
      by_cases h2 : 1 / freq ≤ acc + delta
      · rw [if_pos rfl, if_pos h2]
        simp
        simpa using h2
      · rw [if_pos rfl, if_neg h2]
        simp
        simpa using h2

/-- C5 (counterexample): a contact sets touch sensor 0; the next step fires no control
tick (accumulator 1/4 below the period 1/3) yet the sensors come out cleared, and the
following step, which does fire a tick, reads an all-false sensor vector: the contact
recorded between ticks is not visible to the following tick, contradicting the claim
that sensors are cleared only at control ticks. -/
theorem touch_sensor_lost_between_ticks :
    (updateWalkerEvaluation (1 / 4) 3 lostContactWalker).2.1 = false ∧
    ((updateWalkerEvaluation (1 / 4) 3 lostContactWalker).1).touchSensors =
      List.replicate 13 false ∧
    lostContactWalker.touchSensors ≠ List.replicate 13 false ∧
    (updateWalkerEvaluation (1 / 4) 3
      ((updateWalkerEvaluation (1 / 4) 3 lostContactWalker).1)).2.1 = true ∧
    (updateWalkerEvaluation (1 / 4) 3
      ((updateWalkerEvaluation (1 / 4) 3 lostContactWalker).1)).2.2 =
      List.replicate 13 false := by
  have e1 : updateWalkerEvaluation (1 / 4) 3 lostContactWalker =
      (⟨true, 0 + 1 / 4, 0 + 1 / 4, List.replicate 13 false⟩, false,
        true :: List.replicate 12 false) := by
    rw [lostContactWalker, updateWalkerEvaluation]
    rw [if_pos rfl, if_neg (by norm_num)]
    refine Prod.ext ?_ rfl
    refine congrArg (fun l => CtrlWalker.mk true (0 + 1 / 4) (0 + 1 / 4) l) ?_
    decide
  have e2 : updateWalkerEvaluation (1 / 4) 3
      (⟨true, 0 + 1 / 4, 0 + 1 / 4, List.replicate 13 false⟩ : CtrlWalker) =
      (⟨true, 0 + 1 / 4 + 1 / 4, 0, List.replicate 13 false⟩, true,
        List.replicate 13 false) := by
    rw [updateWalkerEvaluation]
    rw [if_pos rfl, if_pos (by norm_num)]
    refine Prod.ext ?_ rfl
    refine congrArg (fun l => CtrlWalker.mk true (0 + 1 / 4 + 1 / 4) 0 l) ?_
    decide
  refine ⟨?_, ?_, by decide, ?_, ?_⟩
  · rw [e1]
  · rw [e1]
  · rw [e1, e2]
  · rw [e1, e2]

/-- The reap threshold lies strictly between 34 and 35. -/
lemma reapLowerBound_between : (34 : ℚ) < reapLowerBound ∧ reapLowerBound ≤ 35 := by
  norm_num [reapLowerBound]

/-- Integer characterization of the reap boundary: a slot index clears the float
threshold exactly when it is at least 35. -/
lemma reapLowerBound_nat (i : ℕ) : reapLowerBound ≤ (i : ℚ) ↔ 35 ≤ i := by
  constructor
  · intro h
    by_contra hc
    push_neg at hc
    have h34 : i ≤ 34 := by omega
    have hq : (i : ℚ) ≤ 34 := by exact_mod_cast h34
    have := reapLowerBound_between.1
    linarith
  · intro h
    have hq : (35 : ℚ) ≤ (i : ℚ) := by exact_mod_cast h
    have := reapLowerBound_between.2
    linarith

/-- The crossover loop runs 10 times. -/
lemma sowCrossoverIters_eq : sowCrossoverIters = 10 := by decide

/-- The random-reseed loop runs 5 times. -/
lemma sowRandomIters_eq : sowRandomIters = 5 := by
  have h : Int.ceil sowRandomBound = 5 := by
    rw [Int.ceil_eq_iff]
    norm_num [sowRandomBound]
  rw [sowRandomIters, h]
  rfl

/-- The mutation loop visits slots 10 through 34. -/
lemma mutationBandIndices_eq : mutationBandIndices = List.range' 10 25 := by decide

/-- The reap loop count evaluates to 15. -/
lemma reapCount_eq : reapCount = 15 := by
  have hfilter : (Finset.range POPULATION_SIZE).filter (fun (i : ℕ) => reapLowerBound ≤ (i : ℚ)) =
      (Finset.range POPULATION_SIZE).filter (fun (i : ℕ) => 35 ≤ i) :=
    Finset.filter_congr (fun x _ => reapLowerBound_nat x)
  rw [reapCount, hfilter]
  decide

/-- C7: under the default configuration the reap loop marks 15 walkers — exactly the
ceiling of `(POPULATION_SIZE - 1) * REAP_QTY` — `reap` itself sets that many flags on
a clean ranked population, and this reaped count is at least the 10 iterations of the
crossover loop driven by the bound `POPULATION_SIZE * SOW_CROSSOVER_QTY`. -/
theorem reap_count_boundary :
    reapCount = 15 ∧
    (reapCount : ℤ) = Int.ceil (((POPULATION_SIZE : ℚ) - 1) * REAP_QTY) ∧
    (reap freshEvo).reaped.count true = reapCount ∧
    sowCrossoverIters = 10 ∧
    sowCrossoverIters ≤ reapCount := by
  have hceil : Int.ceil (((POPULATION_SIZE : ℚ) - 1) * REAP_QTY) = 15 := by
    rw [Int.ceil_eq_iff]
    norm_num [POPULATION_SIZE, REAP_QTY]
  have hfun : (fun (i : ℕ) (r : Bool) => if reapLowerBound ≤ (i : ℚ) then true else r) =
      (fun (i : ℕ) (r : Bool) => if 35 ≤ i then true else r) := by
    funext i r
    exact if_congr (reapLowerBound_nat i) rfl rfl
  have hcount : (reap freshEvo).reaped.count true = reapCount := by
    rw [reap, reapCount_eq]
    simp only [hfun, freshEvo]
    decide
  refine ⟨reapCount_eq, ?_, hcount, sowCrossoverIters_eq, ?_⟩
  · rw [reapCount_eq, hceil]
    rfl
  · rw [reapCount_eq, sowCrossoverIters_eq]
    omega

/-- Reading a list at a position different from a written one is unchanged. -/
lemma getD_set_ne {α : Type} (l : List α) (j i : ℕ) (v d : α) (h : i ≠ j) :
    (l.set j v).getD i d = l.getD i d := by
  rw [List.getD_eq_getElem?_getD, List.getD_eq_getElem?_getD,
    List.getElem?_set_ne (Ne.symm h)]

/-- The flag update of `reap`, rewritten with the integer form of the boundary. -/
lemma reapFlagFun_eq :
    (fun (i : ℕ) (r : Bool) => if reapLowerBound ≤ (i : ℚ) then true else r) =
      (fun (i : ℕ) (r : Bool) => if 35 ≤ i then true else r) := by
  funext i r
  exact if_congr (reapLowerBound_nat i) rfl rfl

/-- Behaviour of `getNextReaped` while reaped walkers remain: the counter advances and
the walker at slot `49 - m_nextReapedIndex` (for the value before the advance) is
returned, provided that slot is flagged. -/
lemma getNextReaped_spec (w : List (List ℚ)) (r : List Bool) (k : ℕ) (g : Rng)
    (hk : k < 15) (hflag : r.getD (49 - k) false = true) :
    getNextReaped ⟨w, r, k, g⟩ = (some (49 - k), ⟨w, r, k + 1, g⟩) := by
  have hk14 : k ≤ 14 := by omega
  have hcond : reapLowerBound ≤ ((POPULATION_SIZE : ℚ) - 1) - (k : ℚ) := by
    have hq : (k : ℚ) ≤ 14 := by exact_mod_cast hk14
    have h35 := reapLowerBound_between.2
    have hP : ((POPULATION_SIZE : ℕ) : ℚ) = 50 := by norm_num [POPULATION_SIZE]
    rw [hP]
    linarith
  have hidx : POPULATION_SIZE - 1 - (k + 1) + 1 = 49 - k := by
    have hP : POPULATION_SIZE = 50 := rfl
    omega
  simp only [getNextReaped]
  rw [if_pos hcond, hidx, if_pos hflag]

/-- One crossover iteration: with a reaped walker available, the iteration reduces the
remaining count, leaves the flags alone, and writes weights only at slot
`49 - m_nextReapedIndex`, which lies at or above 35. -/
lemma sowCrossoverLoop_succ (m : ℕ) (s : EvoState) (hk : s.nextReapedIndex < 15)
    (hflag : s.reaped.getD (49 - s.nextReapedIndex) false = true) :
    ∃ t : EvoState, sowCrossoverLoop (m + 1) s = sowCrossoverLoop m t ∧
      t.nextReapedIndex = s.nextReapedIndex + 1 ∧ t.reaped = s.reaped ∧
      t.weights.length = s.weights.length ∧
      ∀ j, j < 35 → t.weights.getD j [] = s.weights.getD j [] := by
  obtain ⟨w, r, k, g⟩ := s
  simp only at hk hflag
  simp only [sowCrossoverLoop]
  rw [getNextReaped_spec w r k _ hk hflag]
  refine ⟨_, rfl, rfl, rfl, List.length_set _ _ _, ?_⟩
  intro j hj
  exact getD_set_ne _ _ _ _ _ (by omega)

/-- The crossover loop of `sow` succeeds while enough reaped walkers remain, advancing
the reaped cursor by its iteration count, leaving the flags unchanged and writing no
slot below 35. -/
lemma sowCrossoverLoop_spec : ∀ (n : ℕ) (s : EvoState),
    s.nextReapedIndex + n ≤ 15 →
    (∀ i ∈ List.range POPULATION_SIZE, 35 ≤ i → s.reaped.getD i false = true) →
    ∃ s2, sowCrossoverLoop n s = some s2 ∧
      s2.nextReapedIndex = s.nextReapedIndex + n ∧
      s2.reaped = s.reaped ∧
      s2.weights.length = s.weights.length ∧
      ∀ j, j < 35 → s2.weights.getD j [] = s.weights.getD j [] := by
  intro n
  induction n with
  | zero =>
    intro s _ _
    exact ⟨s, rfl, by omega, rfl, rfl, fun j _ => rfl⟩
  | succ m ih =>
    intro s h1 h2
    have hk : s.nextReapedIndex < 15 := by omega
    have hmem : (49 - s.nextReapedIndex) ∈ List.range POPULATION_SIZE := by
      have hP : POPULATION_SIZE = 50 := rfl
      rw [List.mem_range]
      omega
    have hflag : s.reaped.getD (49 - s.nextReapedIndex) false = true :=
      h2 _ hmem (by omega)
    obtain ⟨t, et, tn, tr, tl, tw⟩ := sowCrossoverLoop_succ m s hk hflag
    obtain ⟨s2, e2, n2, r2, l2, w2⟩ := ih t (by omega) (by rw [tr]; exact h2)
    refine ⟨s2, by rw [et, e2], by omega, by rw [r2, tr], by rw [l2, tl], ?_⟩
    intro j hj
    rw [w2 j hj, tw j hj]

/-- The mutation loop of `sow` touches neither the reaped cursor nor the flags and
writes no slot below 10 when every visited slot is at or above 10. -/
lemma sowMutationLoop_spec : ∀ (L : List ℕ) (s : EvoState),
    (∀ i ∈ L, 10 ≤ i) →
    (sowMutationLoop L s).nextReapedIndex = s.nextReapedIndex ∧
    (sowMutationLoop L s).reaped = s.reaped ∧
    (sowMutationLoop L s).weights.length = s.weights.length ∧
    ∀ j, j < 10 → (sowMutationLoop L s).weights.getD j [] = s.weights.getD j [] := by
  intro L
  induction L with
  | nil => intro s _; exact ⟨rfl, rfl, rfl, fun j _ => rfl⟩
  | cons i rest ih =>
    intro s h
    have hi : 10 ≤ i := h i (List.mem_cons_self i rest)
    simp only [sowMutationLoop]
    obtain ⟨a, b, c, d⟩ := ih
      { s with weights := s.weights.set i (mutate (sowMutationRate i) (s.weights.getD i []) s.rng).1,
               rng := (mutate (sowMutationRate i) (s.weights.getD i []) s.rng).2 }
      (fun x hx => h x (List.mem_cons_of_mem _ hx))
    refine ⟨a, b, c.trans (List.length_set _ _ _), ?_⟩
    intro j hj
    rw [d j hj]
    exact getD_set_ne _ _ _ _ _ (by omega)

/-- The random-reseed loop of `sow` succeeds while enough reaped walkers remain,
advancing the reaped cursor by its iteration count and touching no slot below 35. -/
lemma sowRandomLoop_spec : ∀ (n : ℕ) (s : EvoState),
    s.nextReapedIndex + n ≤ 15 →
    (∀ i ∈ List.range POPULATION_SIZE, 35 ≤ i → i + s.nextReapedIndex ≤ 49 →
      s.reaped.getD i false = true) →
    ∃ s2, sowRandomLoop n s = some s2 ∧
      s2.nextReapedIndex = s.nextReapedIndex + n ∧
      s2.reaped.length = s.reaped.length ∧
      s2.weights.length = s.weights.length ∧
      ∀ j, j < 35 → s2.weights.getD j [] = s.weights.getD j [] ∧
        s2.reaped.getD j false = s.reaped.getD j false := by
  intro n
  induction n with
  | zero =>
    intro s _ _
    exact ⟨s, rfl, by omega, rfl, rfl, fun j _ => ⟨rfl, rfl⟩⟩
  | succ m ih =>
    intro s h1 h2
    obtain ⟨w, r, k, g⟩ := s
    simp only at h1 h2
    have hk : k < 15 := by omega
    have hmem : (49 - k) ∈ List.range POPULATION_SIZE := by
      have hP : POPULATION_SIZE = 50 := rfl
      rw [List.mem_range]
      omega
    have hflag : r.getD (49 - k) false = true :=
      h2 _ hmem (by omega) (by omega)
    simp only [sowRandomLoop]
    rw [getNextReaped_spec w r k g hk hflag]
    have hflags : ∀ i ∈ List.range POPULATION_SIZE, 35 ≤ i → i + (k + 1) ≤ 49 →
        (r.set (49 - k) false).getD i false = true := by
      intro i hi h35 hcur
      have hne : i ≠ 49 - k := by omega
      rw [getD_set_ne _ _ _ _ _ hne]
      exact h2 i hi h35 (by omega)
    obtain ⟨s2, e2, n2, r2, l2, w2⟩ := ih
      ⟨w.set (49 - k) (randomizeSensoryMotorWeights g).1, r.set (49 - k) false, k + 1,
        (randomizeSensoryMotorWeights g).2⟩
      (show k + 1 + m ≤ 15 by omega) hflags
    have n2x : s2.nextReapedIndex = k + 1 + m := n2
    have r2x : s2.reaped.length = (r.set (49 - k) false).length := r2
    have l2x : s2.weights.length = (w.set (49 - k) (randomizeSensoryMotorWeights g).1).length := l2
    refine ⟨s2, ?_, by rw [n2x]; omega,
      by rw [r2x]; exact List.length_set _ _ _,
      by rw [l2x]; exact List.length_set _ _ _, ?_⟩
    · rw [← e2]
    · intro j hj
      obtain ⟨wa, wb⟩ := w2 j hj
      have wax : s2.weights.getD j [] =
          (w.set (49 - k) (randomizeSensoryMotorWeights g).1).getD j [] := wa
      have wbx : s2.reaped.getD j false = (r.set (49 - k) false).getD j false := wb
      constructor
      · rw [wax]
        exact getD_set_ne _ _ _ _ _ (by omega)
      · rw [wbx]
        exact getD_set_ne _ _ _ _ _ (by omega)

/-- The precondition `SowReady` holds for the default population right after `reap`. -/
lemma sowReady_reap_freshEvo : SowReady (reap freshEvo) := by
  have hflags : ∀ i ∈ List.range POPULATION_SIZE, 35 ≤ i →
      (reap freshEvo).reaped.getD i false = true := by
    rw [reap]
    simp only [reapFlagFun_eq, freshEvo]
    decide
  refine ⟨rfl, ?_, rfl, hflags⟩
  rw [reap]
  simp [freshEvo, POPULATION_SIZE]

/-- C8: starting from the post-reap state of a round end under the default
configuration, `sow` succeeds and never writes an elite slot: the mutation band lies
entirely at or above the elite count, crossover offspring and random reseeds land
only in reaped slots (indices 35 and up), and the weight lists and reaped flags of
the top `sowEliteCount` ranked slots are identical before and after the sow, for
every random stream — elites are only ever read as parents. -/
theorem sow_preserves_elites (s : EvoState) (h : SowReady s) :
    (∀ i ∈ mutationBandIndices, sowEliteCount ≤ i) ∧
    ∃ s2, sow s = some s2 ∧
      ∀ j, j < sowEliteCount →
        s2.weights.getD j [] = s.weights.getD j [] ∧
        s2.reaped.getD j false = s.reaped.getD j false := by
  obtain ⟨hW, hR, hN, hF⟩ := h
  have hband : ∀ i ∈ mutationBandIndices, sowEliteCount ≤ i := by
    rw [mutationBandIndices_eq, sowEliteCount_eq]
    decide
  obtain ⟨s1, e1, n1, r1, l1, w1⟩ := sowCrossoverLoop_spec sowCrossoverIters s
    (by rw [hN, sowCrossoverIters_eq]; omega) hF
  obtain ⟨m1, m2, m3, m4⟩ := sowMutationLoop_spec mutationBandIndices s1
    (by rw [mutationBandIndices_eq]; intro i hi; rw [List.mem_range'_1] at hi; omega)
  have hpre1 : (sowMutationLoop mutationBandIndices s1).nextReapedIndex
      + sowRandomIters ≤ 15 := by
    rw [m1, n1, hN, sowRandomIters_eq, sowCrossoverIters_eq]
  have hpre2 : ∀ i ∈ List.range POPULATION_SIZE, 35 ≤ i →
      i + (sowMutationLoop mutationBandIndices s1).nextReapedIndex ≤ 49 →
      (sowMutationLoop mutationBandIndices s1).reaped.getD i false = true := by
    intro i hi h35 _
    rw [m2, r1]
    exact hF i hi h35
  obtain ⟨s2, e2, n2, r2, l2, w2⟩ := sowRandomLoop_spec sowRandomIters
    (sowMutationLoop mutationBandIndices s1) hpre1 hpre2
  refine ⟨hband, s2, ?_, ?_⟩
  · rw [sow, e1, Option.some_bind]
    exact e2
  · intro j hj
    have hj10 : j < 10 := by
      rw [sowEliteCount_eq] at hj
      omega
    have hj35 : j < 35 := by omega
    obtain ⟨wa, wb⟩ := w2 j hj35
    constructor
    · rw [wa, m4 j hj10, w1 j hj35]
    · rw [wb, m2, r1]

/-- C10: with the default parameters, the crossover loop and the random-reseed loop
together call `getNextReaped` exactly as many times as there are reaped walkers, so
starting from the post-reap state `getNextReaped` never returns NULL during `sow`,
`crossover` never receives a NULL offspring, and `sow` runs to completion with the
reaped cursor exactly at the reaped count — for every random stream. -/
theorem sow_next_reaped_never_null (s : EvoState) (h : SowReady s) :
    sowCrossoverIters + sowRandomIters = reapCount ∧
    ∃ s2, sow s = some s2 ∧ s2.nextReapedIndex = reapCount := by
  obtain ⟨hW, hR, hN, hF⟩ := h
  obtain ⟨s1, e1, n1, r1, l1, w1⟩ := sowCrossoverLoop_spec sowCrossoverIters s
    (by rw [hN, sowCrossoverIters_eq]; omega) hF
  obtain ⟨m1, m2, m3, m4⟩ := sowMutationLoop_spec mutationBandIndices s1
    (by rw [mutationBandIndices_eq]; intro i hi; rw [List.mem_range'_1] at hi; omega)
  have hpre1 : (sowMutationLoop mutationBandIndices s1).nextReapedIndex
      + sowRandomIters ≤ 15 := by
    rw [m1, n1, hN, sowRandomIters_eq, sowCrossoverIters_eq]
  have hpre2 : ∀ i ∈ List.range POPULATION_SIZE, 35 ≤ i →
      i + (sowMutationLoop mutationBandIndices s1).nextReapedIndex ≤ 49 →
      (sowMutationLoop mutationBandIndices s1).reaped.getD i false = true := by
    intro i hi h35 _
    rw [m2, r1]
    exact hF i hi h35
  obtain ⟨s2, e2, n2, r2, l2, w2⟩ := sowRandomLoop_spec sowRandomIters
    (sowMutationLoop mutationBandIndices s1) hpre1 hpre2
  refine ⟨by rw [sowCrossoverIters_eq, sowRandomIters_eq, reapCount_eq], s2, ?_, ?_⟩
  · rw [sow, e1, Option.some_bind]
    exact e2
  · rw [n2, m1, n1, hN, sowCrossoverIters_eq, sowRandomIters_eq, reapCount_eq]

/-- C8 (witness): the elite preservation theorem applied to the concrete post-reap
state of the default population. -/
theorem sow_preserves_elites_witness :
    ∃ s2, sow (reap freshEvo) = some s2 ∧
      ∀ j, j < sowEliteCount →
        s2.weights.getD j [] = (reap freshEvo).weights.getD j [] ∧
        s2.reaped.getD j false = (reap freshEvo).reaped.getD j false :=
  (sow_preserves_elites (reap freshEvo) sowReady_reap_freshEvo).2

/-- C10 (witness): the sow-never-NULL theorem applied to the concrete post-reap state
of the default population. -/
theorem sow_next_reaped_never_null_witness :
    sowCrossoverIters + sowRandomIters = reapCount ∧
    ∃ s2, sow (reap freshEvo) = some s2 ∧ s2.nextReapedIndex = reapCount :=
  sow_next_reaped_never_null (reap freshEvo) sowReady_reap_freshEvo

/-- C9 (amended): startup performs no configuration validation: `initPhysics` raises
no configuration error for any configuration, malformed or well formed. -/
theorem init_config_no_validation :
    ∀ c : EvoConfig, initPhysicsConfigError c = none :=
  fun _ => rfl

/-- C9 (counterexample): the default configuration with the parallelism bound forced
to 0 is malformed in the claimed sense, yet startup raises no configuration error —
the claim that every malformed configuration fails fast at startup is false on this
concrete input. -/
theorem malformed_config_accepted :
    MalformedConfig zeroParallelConfig ∧
      initPhysicsConfigError zeroParallelConfig = none := by
  constructor
  · unfold MalformedConfig zeroParallelConfig
    right
    norm_num
  · rfl

/-- A finished evaluation is torn down and not re-admitted in the same visit (its
clock is positive). -/
lemma step_teardown (par dur : ℚ) (hdur : 0 < dur) (w : SchedWalker) (c : ℤ)
    (h1 : w.inEvaluation = true) (h2 : dur ≤ w.evaluationTime) :
    schedWalkerStep par dur w c = (⟨false, w.evaluationTime⟩, c - 1) := by
  rw [schedWalkerStep, schedTeardown, if_pos ⟨h1, h2⟩]
  rw [schedAdmit, if_neg]
  rintro ⟨-, -, h0⟩
  simp only at h0
  rw [h0] at h2
  linarith

/-- A walker mid-evaluation is left alone. -/
lemma step_running (par dur : ℚ) (w : SchedWalker) (c : ℤ)
    (h1 : w.inEvaluation = true) (h2 : ¬ dur ≤ w.evaluationTime) :
    schedWalkerStep par dur w c = (w, c) := by
  rw [schedWalkerStep, schedTeardown, if_neg (by rintro ⟨-, hd⟩; exact h2 hd)]
  rw [schedAdmit, if_neg (by rintro ⟨-, hf, -⟩; rw [h1] at hf; cases hf)]

/-- An idle never-run walker is admitted while the counter is below the bound. -/
lemma step_activate (par dur : ℚ) (w : SchedWalker) (c : ℤ)
    (h1 : w.inEvaluation = false) (h2 : w.evaluationTime = 0) (h3 : (c : ℚ) < par) :
    schedWalkerStep par dur w c = (⟨true, 0⟩, c + 1) := by
  rw [schedWalkerStep, schedTeardown, if_neg (by rintro ⟨hf, -⟩; rw [h1] at hf; cases hf)]
  rw [schedAdmit, if_pos ⟨h3, h1, h2⟩]

/-- An idle walker that cannot be admitted — clock already advanced, or the counter at
the bound — is left alone. -/
lemma step_idle (par dur : ℚ) (w : SchedWalker) (c : ℤ)
    (h1 : w.inEvaluation = false)
    (h2 : ¬ (w.evaluationTime = 0 ∧ (c : ℚ) < par)) :
    schedWalkerStep par dur w c = (w, c) := by
  rw [schedWalkerStep, schedTeardown, if_neg (by rintro ⟨hf, -⟩; rw [h1] at hf; cases hf)]
  rw [schedAdmit, if_neg (by rintro ⟨hc, -, h0⟩; exact h2 ⟨h0, hc⟩)]

/-- A walker has not started exactly when it is idle with a reset clock. -/
lemma unstarted_iff (w : SchedWalker) :
    ¬ Started w ↔ (w.inEvaluation = false ∧ w.evaluationTime = 0) := by
  rw [Started]
  push_neg
  rw [show (w.inEvaluation ≠ true) = (w.inEvaluation = false) from by
    simp [Bool.not_eq_true]]

/-- Count of a cons cell. -/
lemma countInEval_cons (w : SchedWalker) (l : List SchedWalker) :
    countInEval (w :: l) = evalFlag w + countInEval l := by
  rw [countInEval, countInEval, List.countP_cons, evalFlag]
  by_cases h : w.inEvaluation = true
  · simp [h]
    omega
  · simp [h]

/-- The in-evaluation count is nonnegative. -/
lemma countInEval_nonneg (l : List SchedWalker) : 0 ≤ countInEval l := by
  rw [countInEval]
  exact Int.ofNat_nonneg _

/-- A population with no walker in evaluation counts zero. -/
lemma countInEval_eq_zero (l : List SchedWalker)
    (h : ∀ w ∈ l, w.inEvaluation = false) : countInEval l = 0 := by
  rw [countInEval]
  have : l.countP (fun w => w.inEvaluation) = 0 :=
    List.countP_eq_zero.mpr (fun a ha => by rw [h a ha]; exact Bool.false_ne_true)
  rw [this]
  rfl

/-- Each slot visit changes the counter by exactly the change of the visited walker
in-evaluation flag. -/
lemma schedWalkerStep_diff (par dur : ℚ) (hdur : 0 < dur) (w : SchedWalker) (c : ℤ) :
    (schedWalkerStep par dur w c).2 - evalFlag (schedWalkerStep par dur w c).1
      = c - evalFlag w := by
  by_cases h1 : w.inEvaluation = true
  · by_cases h2 : dur ≤ w.evaluationTime
    · rw [step_teardown par dur hdur w c h1 h2]
      simp [evalFlag, h1]
    · rw [step_running par dur w c h1 h2]
  · rw [Bool.not_eq_true] at h1
    by_cases h2 : w.evaluationTime = 0 ∧ (c : ℚ) < par
    · rw [step_activate par dur w c h1 h2.1 h2.2]
      simp [evalFlag, h1]
    · rw [step_idle par dur w c h1 h2]

/-- The pass preserves the difference between the counter and the in-evaluation
count. -/
lemma schedPass_diff (par dur : ℚ) (hdur : 0 < dur) : ∀ (l : List SchedWalker) (c : ℤ),
    (schedPass par dur l c).2 - countInEval (schedPass par dur l c).1
      = c - countInEval l := by
  intro l
  induction l with
  | nil => intro c; simp [schedPass, countInEval]
  | cons w ws ih =>
    intro c
    simp only [schedPass]
    rw [countInEval_cons, countInEval_cons]
    have hstep := schedWalkerStep_diff par dur hdur w c
    have htail := ih (schedWalkerStep par dur w c).2
    omega

/-- The pass preserves the population length. -/
lemma schedPass_length (par dur : ℚ) : ∀ (l : List SchedWalker) (c : ℤ),
    (schedPass par dur l c).1.length = l.length := by
  intro l
  induction l with
  | nil => intro c; rfl
  | cons w ws ih =>
    intro c
    simp only [schedPass, List.length_cons]
    rw [ih]

/-- With an integer parallelism bound, one slot visit keeps the counter at or below
the bound. -/
lemma schedWalkerStep_le (par : ℤ) (dur : ℚ) (hdur : 0 < dur) (w : SchedWalker) (c : ℤ)
    (h : c ≤ par) : (schedWalkerStep (par : ℚ) dur w c).2 ≤ par := by
  by_cases h1 : w.inEvaluation = true
  · by_cases h2 : dur ≤ w.evaluationTime
    · rw [step_teardown (par : ℚ) dur hdur w c h1 h2]
      simp only
      omega
    · rw [step_running (par : ℚ) dur w c h1 h2]
      exact h
  · rw [Bool.not_eq_true] at h1
    by_cases h2 : w.evaluationTime = 0 ∧ (c : ℚ) < (par : ℚ)
    · rw [step_activate (par : ℚ) dur w c h1 h2.1 h2.2]
      have : c < par := by exact_mod_cast h2.2
      simp only
      omega
    · rw [step_idle (par : ℚ) dur w c h1 h2]
      exact h

/-- With an integer parallelism bound, the pass keeps the counter at or below the
bound. -/
lemma schedPass_le (par : ℤ) (dur : ℚ) (hdur : 0 < dur) : ∀ (l : List SchedWalker) (c : ℤ),
    c ≤ par → (schedPass (par : ℚ) dur l c).2 ≤ par := by
  intro l
  induction l with
  | nil => intro c h; exact h
  | cons w ws ih =>
    intro c h
    simp only [schedPass]
    exact ih _ (schedWalkerStep_le par dur hdur w c h)

/-- A pass over unstarted walkers with the counter at the bound changes nothing. -/
lemma schedPass_stuck (par dur : ℚ) : ∀ (l : List SchedWalker) (c : ℤ),
    (∀ w ∈ l, w.inEvaluation = false ∧ w.evaluationTime = 0) → par ≤ (c : ℚ) →
    schedPass par dur l c = (l, c) := by
  intro l
  induction l with
  | nil => intro c _ _; rfl
  | cons w ws ih =>
    intro c hall hc
    obtain ⟨h1, h2⟩ := hall w (List.mem_cons_self w ws)
    have hstep : schedWalkerStep par dur w c = (w, c) :=
      step_idle par dur w c h1 (fun hpair => absurd hpair.2 (not_lt.mpr hc))
    simp only [schedPass, hstep]
    rw [ih c (fun x hx => hall x (List.mem_cons_of_mem _ hx)) hc]

/-- A pass over idle walkers never decreases the counter. -/
lemma schedPass_counter_mono (par dur : ℚ) : ∀ (l : List SchedWalker) (c : ℤ),
    (∀ w ∈ l, w.inEvaluation = false) → c ≤ (schedPass par dur l c).2 := by
  intro l
  induction l with
  | nil => intro c _; exact le_refl c
  | cons w ws ih =>
    intro c hall
    have h1 : w.inEvaluation = false := hall w (List.mem_cons_self w ws)
    have htail := ih (schedWalkerStep par dur w c).2
      (fun x hx => hall x (List.mem_cons_of_mem _ hx))
    simp only [schedPass]
    by_cases h2 : w.evaluationTime = 0 ∧ (c : ℚ) < par
    · rw [step_activate par dur w c h1 h2.1 h2.2] at htail ⊢
      simp only at htail ⊢
      omega
    · rw [step_idle par dur w c h1 h2] at htail ⊢
      exact htail

/-- Main pass lemma: over a population whose started walkers form a prefix and whose
idle walkers are settled, with the counter equal to the in-evaluation count plus a
nonnegative surplus `a` of already admitted walkers, the pass keeps the prefix shape
and the settled clocks; and when it ends with the counter at zero, every walker is
idle with a completed evaluation. -/
lemma schedPass_main (par dur : ℚ) (hpar : 1 ≤ par) (hdur : 0 < dur) :
    ∀ (l : List SchedWalker) (a c : ℤ), 0 ≤ a → c = a + countInEval l →
      StartedToFront l → (∀ w ∈ l, Settled dur w) →
      StartedToFront (schedPass par dur l c).1 ∧
      (∀ w ∈ (schedPass par dur l c).1, Settled dur w) ∧
      ((schedPass par dur l c).2 = 0 →
        ∀ w ∈ (schedPass par dur l c).1,
          w.inEvaluation = false ∧ dur ≤ w.evaluationTime) := by
  intro l
  induction l with
  | nil =>
    intro a c ha hc _ _
    refine ⟨List.Pairwise.nil, ?_, ?_⟩
    · intro w hw
      cases hw
    · intro _ w hw
      cases hw
  | cons w ws ih =>
    intro a c ha hc hfront hset
    rw [StartedToFront, List.pairwise_cons] at hfront
    obtain ⟨hhead, htail⟩ := hfront
    have hsetw : Settled dur w := hset w (List.mem_cons_self w ws)
    have hsettail : ∀ x ∈ ws, Settled dur x := fun x hx => hset x (List.mem_cons_of_mem _ hx)
    rw [countInEval_cons] at hc
    by_cases h1 : w.inEvaluation = true
    · by_cases h2 : dur ≤ w.evaluationTime
      · -- teardown of a finished evaluation
        have hstep := step_teardown par dur hdur w c h1 h2
        have hflag : evalFlag w = 1 := by rw [evalFlag, if_pos h1]
        have hc2 : c - 1 = a + countInEval ws := by omega
        obtain ⟨f2, s2, t2⟩ := ih a (c - 1) ha hc2 htail hsettail
        simp only [schedPass, hstep]
        have hw1 : Started (⟨false, w.evaluationTime⟩ : SchedWalker) := by
          rw [Started]
          right
          intro h0
          simp only at h0
          rw [h0] at h2
          linarith
        refine ⟨?_, ?_, ?_⟩
        · rw [StartedToFront, List.pairwise_cons]
          exact ⟨fun b _ _ => hw1, f2⟩
        · intro x hx
          rcases List.mem_cons.mp hx with h | h
          · rw [h]
            intro _
            right
            exact h2
          · exact s2 x h
        · intro h0 x hx
          rcases List.mem_cons.mp hx with h | h
          · rw [h]
            exact ⟨rfl, h2⟩
          · exact t2 h0 x h
      · -- walker mid-evaluation
        have hstep := step_running par dur w c h1 h2
        have hflag : evalFlag w = 1 := by rw [evalFlag, if_pos h1]
        have hc2 : c = (a + 1) + countInEval ws := by omega
        obtain ⟨f2, s2, t2⟩ := ih (a + 1) c (by omega) hc2 htail hsettail
        simp only [schedPass, hstep]
        refine ⟨?_, ?_, ?_⟩
        · rw [StartedToFront, List.pairwise_cons]
          exact ⟨fun b _ _ => Or.inl h1, f2⟩
        · intro x hx
          rcases List.mem_cons.mp hx with h | h
          · rw [h]
            exact hsetw
          · exact s2 x h
        · intro h0
          exfalso
          have hdiff := schedPass_diff par dur hdur ws c
          have hnn := countInEval_nonneg (schedPass par dur ws c).1
          omega
    · rw [Bool.not_eq_true] at h1
      have hflag : evalFlag w = 0 := by
        rw [evalFlag, if_neg]
        rw [h1]
        exact Bool.false_ne_true
      by_cases h2 : w.evaluationTime = 0 ∧ (c : ℚ) < par
      · -- admission of a never-run idle walker
        have hstep := step_activate par dur w c h1 h2.1 h2.2
        have hc2 : c + 1 = (a + 1) + countInEval ws := by omega
        obtain ⟨f2, s2, t2⟩ := ih (a + 1) (c + 1) (by omega) hc2 htail hsettail
        simp only [schedPass, hstep]
        refine ⟨?_, ?_, ?_⟩
        · rw [StartedToFront, List.pairwise_cons]
          exact ⟨fun b _ _ => Or.inl rfl, f2⟩
        · intro x hx
          rcases List.mem_cons.mp hx with h | h
          · rw [h]
            intro hfalse
            simp at hfalse
          · exact s2 x h
        · intro h0
          exfalso
          have hdiff := schedPass_diff par dur hdur ws (c + 1)
          have hnn := countInEval_nonneg (schedPass par dur ws (c + 1)).1
          omega
      · -- idle walker not admitted
        have hstep := step_idle par dur w c h1 h2
        simp only [schedPass, hstep]
        by_cases hw : Started w
        · have hc2 : c = a + countInEval ws := by omega
          obtain ⟨f2, s2, t2⟩ := ih a c ha hc2 htail hsettail
          refine ⟨?_, ?_, ?_⟩
          · rw [StartedToFront, List.pairwise_cons]
            exact ⟨fun b _ _ => hw, f2⟩
          · intro x hx
            rcases List.mem_cons.mp hx with h | h
            · rw [h]
              exact hsetw
            · exact s2 x h
          · intro h0 x hx
            rcases List.mem_cons.mp hx with h | h
            · rw [h]
              refine ⟨h1, ?_⟩
              rcases hsetw h1 with h0t | hfin
              · exfalso
                rcases hw with hie | hne
                · rw [h1] at hie
                  cases hie
                · exact hne h0t
              · exact hfin
            · exact t2 h0 x h
        · have hwfields := (unstarted_iff w).mp hw
          have hcpar : par ≤ (c : ℚ) := by
            by_contra hlt
            push_neg at hlt
            exact h2 ⟨hwfields.2, hlt⟩
          have hallws : ∀ x ∈ ws, x.inEvaluation = false ∧ x.evaluationTime = 0 := by
            intro x hx
            exact (unstarted_iff x).mp (fun hs => hw (hhead x hx hs))
          rw [schedPass_stuck par dur ws c hallws hcpar]
          refine ⟨?_, ?_, ?_⟩
          · rw [StartedToFront, List.pairwise_cons]
            exact ⟨hhead, htail⟩
          · intro x hx
            rcases List.mem_cons.mp hx with h | h
            · rw [h]
              exact hsetw
            · exact hsettail x h
          · intro h0
            exfalso
            have h0c : c = 0 := h0
            rw [h0c] at hcpar
            simp only [Int.cast_zero] at hcpar
            linarith

/-- An all-unstarted population trivially has its started walkers in front. -/
lemma startedToFront_of_unstarted (l : List SchedWalker)
    (h : ∀ w ∈ l, ¬ Started w) : StartedToFront l := by
  rw [StartedToFront]
  refine List.pairwise_of_forall_mem_list ?_
  intro a _ b hb hs
  exact absurd hs (h b hb)

/-- The initial population satisfies the scheduler invariant. -/
lemma schedInv_initState (dur : ℚ) (n : ℕ) : SchedInv dur (initState n) := by
  have hmem : ∀ w ∈ (initState n).walkers, w = (⟨false, 0⟩ : SchedWalker) := by
    intro w hw
    exact List.eq_of_mem_replicate hw
  refine ⟨?_, ?_, ?_⟩
  · show (0 : ℤ) = countInEval (initState n).walkers
    exact (countInEval_eq_zero _ (fun w hw => by rw [hmem w hw])).symm
  · exact startedToFront_of_unstarted _
      (fun w hw => by rw [hmem w hw]; exact (unstarted_iff _).mpr ⟨rfl, rfl⟩)
  · intro w hw
    rw [hmem w hw]
    intro _
    left
    rfl

/-- Advancing the clocks preserves startedness pointwise. -/
lemma advance_started (dt : ℚ) (w : SchedWalker) :
    Started (if w.inEvaluation = true
      then (⟨w.inEvaluation,
        w.evaluationTime + (if 1 / 60 < dt then 1 / 60 else dt)⟩ : SchedWalker)
      else w) ↔ Started w := by
  by_cases h : w.inEvaluation = true
  · rw [if_pos h]
    constructor
    · intro _
      exact Or.inl h
    · intro _
      exact Or.inl h
  · rw [if_neg h]

/-- The clamped clock advance of `updateEvaluations` preserves the scheduler
invariant. -/
lemma schedInv_advanceTimes (dur dt : ℚ) (s : SchedState) (h : SchedInv dur s) :
    SchedInv dur (advanceTimes dt s) := by
  obtain ⟨hcnt, hfront, hset⟩ := h
  refine ⟨?_, ?_, ?_⟩
  · show s.inFlight = countInEval (s.walkers.map _)
    rw [hcnt, countInEval, countInEval, List.countP_map]
    refine congrArg _ (List.countP_congr ?_).symm
    intro a _
    by_cases ha : a.inEvaluation = true
    · simp [ha]
    · simp [ha]
  · show StartedToFront (s.walkers.map _)
    rw [StartedToFront, List.pairwise_map]
    refine hfront.imp ?_
    intro a b hab hsb
    exact (advance_started dt a).mpr (hab ((advance_started dt b).mp hsb))
  · intro x hx
    obtain ⟨w, hw, rfl⟩ := List.mem_map.mp hx
    by_cases hwe : w.inEvaluation = true
    · rw [if_pos hwe]
      intro hfalse
      simp only at hfalse
      rw [hwe] at hfalse
      cases hfalse
    · rw [if_neg hwe]
      exact hset w hw

/-- Resetting all clocks after an order-preserving reshuffle leaves the in-evaluation
count unchanged. -/
lemma countInEval_reset_resort (resort : List SchedWalker → List SchedWalker)
    (hresort : ∀ l, (resort l).Perm l) (l : List SchedWalker) :
    countInEval ((resort l).map (fun w => (⟨w.inEvaluation, 0⟩ : SchedWalker))) =
      countInEval l := by
  rw [countInEval, countInEval, List.countP_map]
  refine congrArg _ ?_
  rw [List.countP_congr (fun a _ => Iff.rfl)]
  exact (hresort l).countP_eq _

/-- C2: from any state satisfying the scheduler invariant (which holds initially and
is preserved by the clock advance and by the scheduler step itself), a generation
round completes exactly when the in-flight counter is 0 after the slot pass; at that
point every walker has been evaluated at least once this round (it is idle with its
clock at or past the evaluation duration), exactly one rank-reap-sow handoff runs —
the check sits after the whole pass, so several walkers finishing in the same step
still trigger it once — every clock is reset to 0 in the resulting state, and the
very next scheduler step on a nonempty population does not trigger another
handoff. -/
theorem scheduler_round_completion
    (par dur dt : ℚ) (n : ℕ) (resort : List SchedWalker → List SchedWalker)
    (hpar : 1 ≤ par) (hdur : 0 < dur)
    (hresort : ∀ l, (resort l).Perm l)
    (s : SchedState) (hinv : SchedInv dur s) :
    SchedInv dur (initState n) ∧
    SchedInv dur (advanceTimes dt s) ∧
    SchedInv dur (scheduleEvaluations resort par dur s).1 ∧
    ((scheduleEvaluations resort par dur s).2 = true ↔
      (schedPass par dur s.walkers s.inFlight).2 = 0) ∧
    ((scheduleEvaluations resort par dur s).2 = true →
      (∀ w ∈ (schedPass par dur s.walkers s.inFlight).1,
        w.inEvaluation = false ∧ dur ≤ w.evaluationTime) ∧
      (∀ w ∈ (scheduleEvaluations resort par dur s).1.walkers,
        w.evaluationTime = 0) ∧
      (s.walkers ≠ [] →
        (scheduleEvaluations resort par dur
          (scheduleEvaluations resort par dur s).1).2 = false)) := by
  obtain ⟨hcnt, hfront, hset⟩ := hinv
  obtain ⟨hf, hs, ht⟩ := schedPass_main par dur hpar hdur s.walkers 0 s.inFlight
    le_rfl (by omega) hfront hset
  have hdiff := schedPass_diff par dur hdur s.walkers s.inFlight
  have hPcnt : (schedPass par dur s.walkers s.inFlight).2 =
      countInEval (schedPass par dur s.walkers s.inFlight).1 := by omega
  by_cases h0 : (schedPass par dur s.walkers s.inFlight).2 = 0
  · have hsch : scheduleEvaluations resort par dur s =
        (⟨(resort (schedPass par dur s.walkers s.inFlight).1).map
            (fun w => (⟨w.inEvaluation, 0⟩ : SchedWalker)),
          (schedPass par dur s.walkers s.inFlight).2⟩, true) := by
      rw [scheduleEvaluations, if_pos h0]
    have hall : ∀ x ∈ (scheduleEvaluations resort par dur s).1.walkers,
        x = (⟨false, 0⟩ : SchedWalker) := by
      rw [hsch]
      intro x hx
      simp only at hx
      obtain ⟨w, hw, rfl⟩ := List.mem_map.mp hx
      have hwmem : w ∈ (schedPass par dur s.walkers s.inFlight).1 :=
        (hresort _).mem_iff.mp hw
      rw [(ht h0 w hwmem).1]
    refine ⟨schedInv_initState dur n,
      schedInv_advanceTimes dur dt s ⟨hcnt, hfront, hset⟩, ?_, ?_, ?_⟩
    · refine ⟨?_, ?_, ?_⟩
      · rw [hsch]
        show (schedPass par dur s.walkers s.inFlight).2 = _
        rw [countInEval_reset_resort resort hresort, ← hPcnt]
      · apply startedToFront_of_unstarted
        intro x hx
        rw [hall x hx]
        exact (unstarted_iff _).mpr ⟨rfl, rfl⟩
      · intro x hx
        rw [hall x hx]
        intro _
        left
        rfl
    · rw [hsch]
      simp [h0]
    · intro _
      refine ⟨ht h0, ?_, ?_⟩
      · intro x hx
        rw [hall x hx]
      · intro hne
        have hlen : (scheduleEvaluations resort par dur s).1.walkers.length ≠ 0 := by
          rw [hsch]
          simp only [List.length_map]
          rw [(hresort _).length_eq, schedPass_length]
          intro hz
          exact hne (List.length_eq_zero.mp hz)
        have hfl : (scheduleEvaluations resort par dur s).1.inFlight = 0 := by
          rw [hsch]
          exact h0
        cases hL : (scheduleEvaluations resort par dur s).1.walkers with
        | nil =>
          rw [hL] at hlen
          simp at hlen
        | cons w0 rest =>
          have hw0 : w0 = (⟨false, 0⟩ : SchedWalker) :=
            hall w0 (by rw [hL]; exact List.mem_cons_self w0 rest)
          have hrest : ∀ x ∈ rest, x.inEvaluation = false := by
            intro x hx
            rw [hall x (by rw [hL]; exact List.mem_cons_of_mem _ hx)]
          have hstep : schedWalkerStep par dur w0 0 = (⟨true, 0⟩, 1) := by
            rw [hw0]
            exact step_activate par dur _ 0 rfl rfl (by push_cast; linarith)
          have hge : (1 : ℤ) ≤ (schedPass par dur rest 1).2 :=
            schedPass_counter_mono par dur rest 1 hrest
          have hQ : (schedPass par dur
              (scheduleEvaluations resort par dur s).1.walkers
              (scheduleEvaluations resort par dur s).1.inFlight).2 ≠ 0 := by
            rw [hL, hfl]
            simp only [schedPass, hstep]
            omega
          rw [scheduleEvaluations, if_neg hQ]
  · have hsch : scheduleEvaluations resort par dur s =
        (⟨(schedPass par dur s.walkers s.inFlight).1,
          (schedPass par dur s.walkers s.inFlight).2⟩, false) := by
      rw [scheduleEvaluations, if_neg h0]
    refine ⟨schedInv_initState dur n,
      schedInv_advanceTimes dur dt s ⟨hcnt, hfront, hset⟩, ?_, ?_, ?_⟩
    · rw [hsch]
      exact ⟨hPcnt, hf, hs⟩
    · rw [hsch]
      simp [h0]
    · intro hfalse
      rw [hsch] at hfalse
      simp at hfalse

/-- C6: with an integer parallelism bound, from any state whose in-flight counter
counts the walkers in evaluation and is at most the bound, the scheduler step keeps
the counter consistent and at most the bound, so at most `gParallelEvaluations`
walkers are in evaluation at every point between scheduler steps; the initial state
counts zero. -/
theorem parallel_evaluations_bound
    (par : ℤ) (dur : ℚ) (n : ℕ) (resort : List SchedWalker → List SchedWalker)
    (hdur : 0 < dur)
    (hresort : ∀ l, (resort l).Perm l)
    (s : SchedState)
    (hc : s.inFlight = countInEval s.walkers) (hb : s.inFlight ≤ par) :
    (initState n).inFlight = countInEval (initState n).walkers ∧
    (scheduleEvaluations resort (par : ℚ) dur s).1.inFlight =
      countInEval (scheduleEvaluations resort (par : ℚ) dur s).1.walkers ∧
    (scheduleEvaluations resort (par : ℚ) dur s).1.inFlight ≤ par ∧
    countInEval (scheduleEvaluations resort (par : ℚ) dur s).1.walkers ≤ par := by
  have hinit := (schedInv_initState dur n).1
  have hdiff := schedPass_diff (par : ℚ) dur hdur s.walkers s.inFlight
  have hle := schedPass_le par dur hdur s.walkers s.inFlight hb
  have hnn := countInEval_nonneg s.walkers
  have hPcnt : (schedPass (par : ℚ) dur s.walkers s.inFlight).2 =
      countInEval (schedPass (par : ℚ) dur s.walkers s.inFlight).1 := by omega
  by_cases h0 : (schedPass (par : ℚ) dur s.walkers s.inFlight).2 = 0
  · have hsch : scheduleEvaluations resort (par : ℚ) dur s =
        (⟨(resort (schedPass (par : ℚ) dur s.walkers s.inFlight).1).map
            (fun w => (⟨w.inEvaluation, 0⟩ : SchedWalker)),
          (schedPass (par : ℚ) dur s.walkers s.inFlight).2⟩, true) := by
      rw [scheduleEvaluations, if_pos h0]
    have hcnt0 : countInEval (scheduleEvaluations resort (par : ℚ) dur s).1.walkers
        = 0 := by
      rw [hsch]
      show countInEval ((resort _).map _) = 0
      rw [countInEval_reset_resort resort hresort, ← hPcnt, h0]
    have hpar0 : (0 : ℤ) ≤ par := by omega
    refine ⟨hinit, ?_, ?_, ?_⟩
    · rw [hcnt0, hsch]
      exact h0
    · rw [hsch]
      show (schedPass (par : ℚ) dur s.walkers s.inFlight).2 ≤ par
      omega
    · rw [hcnt0]
      exact hpar0
  · have hsch : scheduleEvaluations resort (par : ℚ) dur s =
        (⟨(schedPass (par : ℚ) dur s.walkers s.inFlight).1,
          (schedPass (par : ℚ) dur s.walkers s.inFlight).2⟩, false) := by
      rw [scheduleEvaluations, if_neg h0]
    refine ⟨hinit, ?_, ?_, ?_⟩
    · rw [hsch]
      exact hPcnt
    · rw [hsch]
      exact hle
    · rw [hsch]
      show countInEval (schedPass (par : ℚ) dur s.walkers s.inFlight).1 ≤ par
      omega

/-- C2 (witness): the round-completion theorem applied to a concrete two-walker
population with unit duration and the identity reshuffle. -/
theorem scheduler_round_completion_witness :
    SchedInv 1 (advanceTimes 1 (initState 2)) :=
  (scheduler_round_completion 1 1 1 2 id le_rfl (by norm_num)
    (fun l => List.Perm.refl l) (initState 2) (schedInv_initState 1 2)).2.1

/-- C6 (witness): the parallelism bound theorem applied to a concrete ten-walker
population with bound 3. -/
theorem parallel_evaluations_bound_witness :
    (scheduleEvaluations id ((3 : ℤ) : ℚ) 10 (initState 10)).1.inFlight ≤ 3 :=
  (parallel_evaluations_bound 3 10 10 id (by norm_num)
    (fun l => List.Perm.refl l) (initState 10) (schedInv_initState 10 10).1
    (by decide)).2.2.1

/-- C3 (spec-modelled): the round-end ranking is a permutation of the population,
sorted descending by fitness (it never places a strictly fitter walker later), with
equal-fitness entries in ascending slot order; and it is the unique such list — any
permutation of the population sorted by the tie-broken order equals it — so the
ranked order is deterministic even when two walkers have equal fitness. -/
theorem ranking_sorted_unique_tiebreak (l : List RankEntry) :
    (rankPopulation l).Perm l ∧
    List.Sorted rankRel (rankPopulation l) ∧
    List.Sorted (fun a b => ¬ fitnessComparator b a) (rankPopulation l) ∧
    (∀ l2 : List RankEntry, l2.Perm l → List.Sorted rankRel l2 →
      l2 = rankPopulation l) := by
  have hperm : (rankPopulation l).Perm l := List.perm_insertionSort rankRel l
  have hsorted : List.Sorted rankRel (rankPopulation l) :=
    List.sorted_insertionSort rankRel l
  refine ⟨hperm, hsorted, ?_, ?_⟩
  · refine hsorted.imp ?_
    intro a b hab
    rw [fitnessComparator]
    rcases hab with h | h
    · exact not_lt.mpr h.le
    · exact not_lt.mpr (le_of_eq h.1.symm)
  · intro l2 hperm2 hsorted2
    exact List.eq_of_perm_of_sorted (hperm2.trans hperm.symm) hsorted2 hsorted

/-- C3 (witness): the uniqueness clause applied to a concrete population with a
fitness tie — the tie-broken sorted order is the ranking. -/
theorem ranking_sorted_unique_tiebreak_witness :
    ([⟨5, 2⟩, ⟨5, 4⟩, ⟨1, 0⟩] : List RankEntry) =
      rankPopulation [⟨5, 4⟩, ⟨1, 0⟩, ⟨5, 2⟩] :=
  (ranking_sorted_unique_tiebreak [⟨5, 4⟩, ⟨1, 0⟩, ⟨5, 2⟩]).2.2.2
    [⟨5, 2⟩, ⟨5, 4⟩, ⟨1, 0⟩] (by decide) (by decide)

end NN3DWalkers
